import Mathlib

/-!
Verification of the spreadsheet ingestion and normalization pipeline of the
production-scheduler order-book application.

The development is a shallow embedding of the pipeline implemented in
`src/admin/app.py`:

* `clean_header`, `COLUMN_ALIASES`, `standardize_columns` — the Column Resolver;
* `parse_date_to_date`, `parse_price_to_float` — the single-cell coercers also
  exposed to interactive edits;
* `normalize_df` — the full pipeline: resolve columns, check required columns,
  reorder, drop all-missing rows, coerce text/date/price cells, drop
  summary-like and blank-like rows.

Modelling conventions:

* A pandas cell is a `PyVal`: the Python `None`, a float `nan`, the pandas
  `NaT` and `NA` markers, a string, a number, or a `datetime.date` value.
* Python floats are modelled exactly as scaled decimal integers (`Dec`,
  a mantissa together with a count of fractional digits), so `float` parsing
  and stringification are exact; float overflow and scientific notation are
  outside the model.
* `pd.to_datetime` is modelled by `pdToDatetime`: ISO `YYYY-MM-DD` strings with
  an optional `HH:MM:SS` time part, `datetime.date` values taken to midnight,
  and numbers read as nanoseconds since the epoch; anything else coerces to
  `NaT` (`Option.none`), which is what `errors="coerce"` produces.
* A DataFrame is a `Table`: a list of column headers and a list of rows, each
  row a list of cells in header order.  Duplicate column labels are resolved
  to their first occurrence.
-/

/-- Python whitespace, as used by `str.strip` and the regex class `\s`. -/
def isSp (c : Char) : Bool :=
  c == ' ' || c == '\t' || c == '\n' || c == '\r' || c == Char.ofNat 11 || c == Char.ofNat 12

/-- Drop leading whitespace, as Python `str.lstrip`. -/
def lstripL (l : List Char) : List Char := l.dropWhile isSp

/-- Drop trailing whitespace, as Python `str.rstrip`. -/
def rstripL (l : List Char) : List Char := (l.reverse.dropWhile isSp).reverse

/-- Model of Python `str.strip`. -/
def stripL (l : List Char) : List Char := rstripL (lstripL l)

/-- Model of Python `str.strip` on `String`. -/
def pyStrip (s : String) : String := String.mk (stripL s.data)

/-- Helper for `collapseWs`: the flag records whether the previous character
was whitespace, so that a run of whitespace emits a single space. -/
def collapseAux : Bool → List Char → List Char
  | _, [] => []
  | inRun, c :: t =>
    if isSp c then
      (if inRun then collapseAux true t else ' ' :: collapseAux true t)
    else c :: collapseAux false t

/-- Collapse every run of whitespace to a single space, the effect of
`re.sub(r"\s+", " ", s)`. -/
def collapseWs (l : List Char) : List Char := collapseAux false l

/-- Lowercase every character, as Python `str.lower` on ASCII text. -/
def lowerL (l : List Char) : List Char := l.map Char.toLower

/-- Header normalization for alias lookup, from `app.py`:
`re.sub(r"\s+", " ", str(s).strip()).lower()`. -/
def clean_header (s : String) : String := String.mk (lowerL (collapseWs (stripL s.data)))

/-- The required canonical columns, in declared order (`REQUIRED_COLS` in `app.py`). -/
def REQUIRED_COLS : List String :=
  ["WO", "Quote", "PO Number", "Status", "Customer Name", "Model Description",
   "Scheduled Date", "Price"]

/-- The header alias table (`COLUMN_ALIASES` in `app.py`). -/
def COLUMN_ALIASES : List (String × String) :=
  [("wo", "WO"), ("work order", "WO"), ("workorder", "WO"),
   ("quote", "Quote"), ("quotation", "Quote"),
   ("po number", "PO Number"), ("po #", "PO Number"), ("po#", "PO Number"),
   ("ponumber", "PO Number"), ("purchase order", "PO Number"),
   ("status", "Status"),
   ("customer", "Customer Name"), ("customer name", "Customer Name"),
   ("client", "Customer Name"), ("client name", "Customer Name"),
   ("model description", "Model Description"), ("description", "Model Description"),
   ("model", "Model Description"),
   ("scheduled date", "Scheduled Date"), ("schedule date", "Scheduled Date"),
   ("scheduled", "Scheduled Date"), ("ship date", "Scheduled Date"),
   ("delivery date", "Scheduled Date"), ("date", "Scheduled Date"),
   ("price", "Price"), ("amount", "Price"), ("value", "Price")]

/-- What `standardize_columns` does to one header: rename through the alias
table on the cleaned spelling, defaulting to the stripped original, then the
final `df.columns = [str(c).strip() ...]` pass strips the result again. -/
def resolveHeader (c : String) : String :=
  pyStrip ((COLUMN_ALIASES.lookup (clean_header c)).getD (pyStrip c))

/-- A calendar date, the result type of `parse_date_to_date`. -/
structure PyDate where
  year : Nat
  month : Nat
  day : Nat
deriving DecidableEq

/-- A timestamp as produced by the `pd.to_datetime` model: a calendar date and
a number of seconds into the day.  `.date()` truncation keeps `dateOf` only. -/
structure PyDateTime where
  dateOf : PyDate
  secs : Nat
deriving DecidableEq

/-- An exact Python float: `mant / 10 ^ scale`.  `float` parsing of the digit
strings arising in this pipeline always yields such a scaled decimal. -/
structure Dec where
  mant : Int
  scale : Nat
deriving DecidableEq

/-- The rational value of a `Dec`. -/
def Dec.toRat (d : Dec) : ℚ := (d.mant : ℚ) / ((10 : ℚ) ^ d.scale)

/-- A pandas cell value. -/
inductive PyVal where
  | none
  | nan
  | nat_
  | na_
  | str (s : String)
  | num (d : Dec)
  | pydate (d : PyDate)
deriving DecidableEq

/-- The decimal digit character for `d < 10`. -/
def dChar (d : Nat) : Char := Char.ofNat (48 + d)

/-- The numeric value of a decimal digit character. -/
def dVal (c : Char) : Nat := c.toNat - 48

/-- Fuel-driven digit accumulator; the fuel is an upper bound on the digit
count so that recursion is structural and the kernel can evaluate it. -/
def digitsCharsGo : Nat → Nat → List Char → List Char
  | 0, _, acc => acc
  | fuel + 1, n, acc =>
    if n < 10 then dChar n :: acc
    else digitsCharsGo fuel (n / 10) (dChar (n % 10) :: acc)

/-- The decimal digit characters of a natural number, most significant first,
matching Python `str` on a nonnegative integer. -/
def digitsChars (n : Nat) : List Char := digitsCharsGo (n + 1) n []

/-- The value of a string of decimal digit characters. -/
def digitsVal (l : List Char) : Nat := l.foldl (fun a c => a * 10 + dVal c) 0

/-- Left-pad a digit string with zeros to width `k`. -/
def padZ (k : Nat) (l : List Char) : List Char := List.replicate (k - l.length) '0' ++ l

/-- Whether Python renders this float value in plain positional notation:
zero, or a magnitude of at least `1e-4` and below `1e16`.  Outside this range
`str` switches to scientific notation. -/
def Dec.plainNotation (d : Dec) : Bool :=
  d.mant == 0 ||
    (10 ^ d.scale ≤ d.mant.natAbs * 10 ^ 4 && d.mant.natAbs < 10 ^ (16 + d.scale))

/-- Plain positional rendering of a scaled decimal: optional sign, integer
part, and exactly `scale` fractional digits when `scale` is nonzero. -/
def renderPlain (d : Dec) : String :=
  String.mk ((if d.mant < 0 then ['-'] else []) ++
    digitsChars (d.mant.natAbs / 10 ^ d.scale) ++
    (if d.scale = 0 then [] else
      '.' :: padZ d.scale (digitsChars (d.mant.natAbs % 10 ^ d.scale))))

/-- Drop trailing zero digits. -/
def dropTrailingZeros (l : List Char) : List Char :=
  (l.reverse.dropWhile (fun c => c == '0')).reverse

/-- Scientific rendering of a nonzero scaled decimal, as Python `str` writes
floats outside the plain range: a normalized mantissa with its trailing
zeros removed, then `e`, a mandatory sign, and a two-digit-padded exponent. -/
def renderSci (d : Dec) : String :=
  let digits := digitsChars d.mant.natAbs
  let e : Int := (digits.length : Int) - 1 - (d.scale : Int)
  let mantissa : List Char :=
    match digits with
    | [] => ['0']
    | c :: rest =>
      match dropTrailingZeros rest with
      | [] => [c]
      | frac => c :: '.' :: frac
  String.mk ((if d.mant < 0 then ['-'] else []) ++ mantissa ++
    'e' :: (if e < 0 then '-' else '+') :: padZ 2 (digitsChars e.natAbs))

/-- Python `str` on a float modelled as a scaled decimal: plain positional
notation inside the plain range, scientific notation outside it. -/
def renderDec (d : Dec) : String :=
  if d.plainNotation then renderPlain d else renderSci d

/-- Python `str` on a `datetime.date`: zero-padded ISO `YYYY-MM-DD`. -/
def isoDateStr (d : PyDate) : String :=
  String.mk (padZ 4 (digitsChars d.year) ++ '-' :: padZ 2 (digitsChars d.month) ++
    '-' :: padZ 2 (digitsChars d.day))

/-- Python `str` of a cell value. -/
def pyStr : PyVal → String
  | PyVal.none => "None"
  | PyVal.nan => "nan"
  | PyVal.nat_ => "NaT"
  | PyVal.na_ => "<NA>"
  | PyVal.str s => s
  | PyVal.num d => renderDec d
  | PyVal.pydate d => isoDateStr d

/-- Model of `pd.isna` on a scalar cell. -/
def isNA : PyVal → Bool
  | PyVal.none => true
  | PyVal.nan => true
  | PyVal.nat_ => true
  | PyVal.na_ => true
  | _ => false

/-- A price cell whose rendering stays in plain notation (non-number cells
are unconstrained). -/
def plainPrice : PyVal → Bool
  | PyVal.num d => d.plainNotation
  | _ => true

/-- Unsigned part of the float parse: digits with at most one decimal point
and at least one digit; the value is the digit concatenation scaled by the
number of fractional digits. -/
def floatCore (ds : List Char) (neg : Bool) : Option Dec :=
  if ds.all (fun c => c.isDigit || c == '.') && ds.any (fun c => c.isDigit) &&
      decide (ds.count '.' ≤ 1) then
    let ip := ds.takeWhile (fun c => !(c == '.'))
    let fp := (ds.dropWhile (fun c => !(c == '.'))).drop 1
    let n : Nat := digitsVal (ip ++ fp)
    some ⟨if neg then -(n : Int) else (n : Int), fp.length⟩
  else Option.none

/-- Model of Python `float(s)` on the residual alphabet of digits, decimal
point and minus sign: an optional single leading minus, then digits with at
most one decimal point and at least one digit.  Any other character fails. -/
def pyFloatOfStr (s : String) : Option Dec :=
  if s.data.head? = some '-' then floatCore s.data.tail true else floatCore s.data false

/-- Leap-year rule of the Gregorian calendar. -/
def isLeap (y : Nat) : Bool := (y % 4 == 0 && y % 100 != 0) || y % 400 == 0

/-- Number of days in a month. -/
def daysInMonth (y m : Nat) : Nat :=
  if m == 2 then (if isLeap y then 29 else 28)
  else if m == 4 || m == 6 || m == 9 || m == 11 then 30
  else 31

/-- Parse the optional time tail of an ISO timestamp: nothing, or a space/`T`
separator followed by `HH:MM:SS`. -/
def timeTail : List Char → Option Nat
  | [] => some 0
  | sep :: h1 :: h2 :: ':' :: m1 :: m2 :: ':' :: s1 :: s2 :: [] =>
    if (sep == ' ' || sep == 'T') && h1.isDigit && h2.isDigit && m1.isDigit &&
        m2.isDigit && s1.isDigit && s2.isDigit then
      let h := digitsVal [h1, h2]
      let mi := digitsVal [m1, m2]
      let se := digitsVal [s1, s2]
      if h < 24 && mi < 60 && se < 60 then some (h * 3600 + mi * 60 + se)
      else Option.none
    else Option.none
  | _ => Option.none

/-- Model of the permissive string date parse performed by `pd.to_datetime`:
an ISO `YYYY-MM-DD` date with calendar validation and an optional time part. -/
def isoParse : List Char → Option PyDateTime
  | y1 :: y2 :: y3 :: y4 :: '-' :: m1 :: m2 :: '-' :: d1 :: d2 :: rest =>
    if y1.isDigit && y2.isDigit && y3.isDigit && y4.isDigit && m1.isDigit &&
        m2.isDigit && d1.isDigit && d2.isDigit then
      let y := digitsVal [y1, y2, y3, y4]
      let mo := digitsVal [m1, m2]
      let da := digitsVal [d1, d2]
      if 1 ≤ mo && mo ≤ 12 && 1 ≤ da && da ≤ daysInMonth y mo then
        (timeTail rest).map (fun secs => ⟨⟨y, mo, da⟩, secs⟩)
      else Option.none
    else Option.none
  | _ => Option.none

/-- Convert a count of days since 1970-01-01 to a calendar date (civil-from-days). -/
def civilFromDays (z : Int) : PyDate :=
  let z' := z + 719468
  let era := if 0 ≤ z' then z' / 146097 else (z' - 146096) / 146097
  let doe := (z' - era * 146097).toNat
  let yoe := (doe - doe / 1460 + doe / 36524 - doe / 146096) / 365
  let y : Int := (yoe : Int) + era * 400
  let doy := doe - (365 * yoe + yoe / 4 - yoe / 100)
  let mp := (5 * doy + 2) / 153
  let da := doy - (153 * mp + 2) / 5 + 1
  let mo := if mp < 10 then mp + 3 else mp - 9
  ⟨(y + (if mo ≤ 2 then 1 else 0)).toNat, mo, da⟩

/-- Model of `pd.to_datetime(x, errors="coerce")` on a scalar: `Option.none`
is the coerced `NaT`.  Strings are trimmed and parsed permissively; date
values become midnight timestamps; numbers are nanoseconds since the epoch. -/
def pdToDatetime : PyVal → Option PyDateTime
  | PyVal.str s => isoParse (stripL s.data)
  | PyVal.pydate d => some ⟨d, 0⟩
  | PyVal.num d => some ⟨civilFromDays (d.mant.fdiv ((86400 * 10 ^ 9) * 10 ^ d.scale)), 0⟩
  | _ => Option.none

/-- The date coercer `parse_date_to_date` from `app.py`:
`None` and the exact trimmed strings `""`, `"None"`, `"NaT"` give `NaT`;
missing scalars give `NaT`; otherwise the permissive parse with coercion,
truncated to a calendar date. -/
def parse_date_to_date (v : PyVal) : Option PyDate :=
  if v = PyVal.none then Option.none
  else if pyStrip (pyStr v) ∈ (["", "None", "NaT"] : List String) then Option.none
  else if isNA v then Option.none
  else (pdToDatetime v).map PyDateTime.dateOf

/-- Characters kept by `re.sub(r"[^0-9.\-]", "", s)`; the preceding
`.replace("$", "").replace(",", "")` calls remove only characters this filter
removes anyway. -/
def priceKeep (c : Char) : Bool := c.isDigit || c == '.' || c == '-'

/-- The price coercer `parse_price_to_float` from `app.py`: `None` and blank
strings give `NA`; missing scalars give `NA`; otherwise strip every character
outside `[0-9.\-]` and parse the residue as a float, `NA` on failure. -/
def parse_price_to_float (v : PyVal) : Option Dec :=
  if v = PyVal.none then Option.none
  else if pyStrip (pyStr v) = "" then Option.none
  else if isNA v then Option.none
  else pyFloatOfStr (String.mk ((pyStr v).data.filter priceKeep))

/-- Text-cell cleanup in `normalize_df`: missing becomes `""`, everything else
is stringified and stripped, and the exact artifacts `"nan"`, `"NaN"`,
`"None"`, `"<NA>"` are replaced by `""`. -/
def cleanText (v : PyVal) : String :=
  let s := pyStrip (if isNA v then "" else pyStr v)
  if s ∈ (["nan", "NaN", "None", "<NA>"] : List String) then "" else s

/-- A coerced text cell. -/
def cleanCell (v : PyVal) : PyVal := PyVal.str (cleanText v)

/-- A coerced date cell: a `date` value or `NaT`. -/
def dateCell (v : PyVal) : PyVal :=
  match parse_date_to_date v with
  | some d => PyVal.pydate d
  | Option.none => PyVal.nat_

/-- A coerced price cell: a float value or `NA`. -/
def priceCell (v : PyVal) : PyVal :=
  match parse_price_to_float v with
  | some d => PyVal.num d
  | Option.none => PyVal.na_

/-- Coerce one selected row: the eight required cells are at positions 0–7
(six text fields, then Scheduled Date, then Price); extra cells are untouched. -/
def coerceRow : List PyVal → List PyVal
  | w :: q :: po :: stt :: cu :: mo :: da :: pr :: rest =>
    cleanCell w :: cleanCell q :: cleanCell po :: cleanCell stt :: cleanCell cu ::
      cleanCell mo :: dateCell da :: priceCell pr :: rest
  | r => r

/-- The string content of a text cell, used by the row predicates. -/
def strAt (r : List PyVal) (i : Nat) : String :=
  match r.getD i PyVal.nan with
  | PyVal.str s => s
  | _ => ""

/-- Full match of the regex `\d+`: one or more digits and nothing else. -/
def isDigitsOnly (s : String) : Bool := !s.data.isEmpty && s.data.all Char.isDigit

/-- The summary-row predicate of `normalize_df`: WO a bare digit string, the
other five text fields empty, date missing, price present. -/
def summaryLike (r : List PyVal) : Bool :=
  isDigitsOnly (strAt r 0) && strAt r 1 == "" && strAt r 2 == "" && strAt r 3 == "" &&
    strAt r 4 == "" && strAt r 5 == "" && isNA (r.getD 6 PyVal.nan) &&
    !(isNA (r.getD 7 PyVal.nan))

/-- The blank-row predicate of `normalize_df`: all six text fields empty,
date missing, price missing. -/
def blankLike (r : List PyVal) : Bool :=
  strAt r 0 == "" && strAt r 1 == "" && strAt r 2 == "" && strAt r 3 == "" &&
    strAt r 4 == "" && strAt r 5 == "" && isNA (r.getD 6 PyVal.nan) &&
    isNA (r.getD 7 PyVal.nan)

/-- The `dropna(how="all", subset=REQUIRED_COLS)` predicate on a selected row:
all eight required cells missing. -/
def allNA8 (r : List PyVal) : Bool := (r.take 8).all isNA

/-- An in-memory table: headers and rows of cells in header order. -/
structure Table where
  headers : List String
  rows : List (List PyVal)
deriving DecidableEq

/-- The schema failure raised by `normalize_df`, carrying the missing columns
and the columns that were found. -/
structure SchemaError where
  missing : List String
  found : List String
deriving DecidableEq

/-- Decidable equality for pipeline results, so concrete runs can be checked
by evaluation. -/
instance {α β : Type} [DecidableEq α] [DecidableEq β] : DecidableEq (Except α β) :=
  fun a b =>
    match a, b with
    | Except.ok x, Except.ok y =>
      if h : x = y then isTrue (congrArg Except.ok h)
      else isFalse (fun hc => h (Except.ok.inj hc))
    | Except.error x, Except.error y =>
      if h : x = y then isTrue (congrArg Except.error h)
      else isFalse (fun hc => h (Except.error.inj hc))
    | Except.ok _, Except.error _ => isFalse (fun hc => Except.noConfusion hc)
    | Except.error _, Except.ok _ => isFalse (fun hc => Except.noConfusion hc)

/-- All positions of a name among the headers, in order.  Pandas selection
by label returns every matching column, so a duplicated label matches more
than one position. -/
def matchIdxs : List String → String → List Nat
  | [], _ => []
  | c :: t, n =>
    if c == n then 0 :: (matchIdxs t n).map (fun i => i + 1)
    else (matchIdxs t n).map (fun i => i + 1)

/-- The header row of `df[ordered]`: each mention of a name contributes one
column per matching header, so duplicated labels are multiplied. -/
def selHeaders (hs ordered : List String) : List String :=
  ordered.flatMap (fun n => hs.filter (fun c => c == n))

/-- Select the named columns from a row: each mention of a name contributes
the cells of every matching column, in original order (the effect of
`df[ordered]` on possibly duplicated labels). -/
def selRow (hs ordered : List String) (r : List PyVal) : List PyVal :=
  ordered.flatMap (fun n => (matchIdxs hs n).map (fun i => r.getD i PyVal.nan))

/-- The Column Resolver `standardize_columns` from `app.py`: rename every
header through the alias table and strip the result. -/
def standardize_columns (t : Table) : Table :=
  ⟨t.headers.map resolveHeader, t.rows⟩

/-- The full pipeline `normalize_df` from `app.py`. -/
def normalize_df (t : Table) : Except SchemaError Table :=
  let t1 := standardize_columns t
  let missing := REQUIRED_COLS.filter (fun c => !(t1.headers.contains c))
  if missing = [] then
    let ordered := REQUIRED_COLS ++ t1.headers.filter (fun c => !(REQUIRED_COLS.contains c))
    let rows1 := t1.rows.map (selRow t1.headers ordered)
    let rows2 := rows1.filter (fun r => !(allNA8 r))
    let rows3 := rows2.map coerceRow
    let rows4 := rows3.filter (fun r => !(summaryLike r))
    let rows5 := rows4.filter (fun r => !(blankLike r))
    Except.ok ⟨selHeaders t1.headers ordered, rows5⟩
  else Except.error ⟨missing, t1.headers⟩

/-- Lowercase a string; used to state case-insensitivity properties. -/
def lowerS (s : String) : String := String.mk (lowerL s.data)

/-- Price residual as worded by the specification (for comparison with the
implementation): keep digits, decimal points, and a minus sign only when it is
the leading character; strip everything else, including `$` and commas. -/
def claimPriceResidual (s : String) : List Char :=
  match s.data with
  | '-' :: rest => '-' :: rest.filter (fun c => c.isDigit || c == '.')
  | l => l.filter (fun c => c.isDigit || c == '.')

/-- Price coercion as worded by the specification: blank input is missing,
otherwise parse the spec residual, missing on parse failure. -/
def claimCoercePrice (s : String) : Option Dec :=
  if pyStrip s = "" then Option.none
  else pyFloatOfStr (String.mk (claimPriceResidual s))

/-- Example input: a row whose only nonempty field is Quote. -/
def quoteOnlyTable : Table :=
  ⟨REQUIRED_COLS,
   [[PyVal.nan, PyVal.str "x", PyVal.nan, PyVal.nan, PyVal.nan, PyVal.nan, PyVal.nan,
     PyVal.nan]]⟩

/-- Example input: the summary footer row of the spec, with a price. -/
def summaryRowTable : Table :=
  ⟨REQUIRED_COLS,
   [[PyVal.str "42", PyVal.str "", PyVal.str "", PyVal.str "", PyVal.str "", PyVal.str "",
     PyVal.nat_, PyVal.num ⟨99990, 1⟩]]⟩

/-- Example input: the same row with the price missing. -/
def summaryNoPriceTable : Table :=
  ⟨REQUIRED_COLS,
   [[PyVal.str "42", PyVal.str "", PyVal.str "", PyVal.str "", PyVal.str "", PyVal.str "",
     PyVal.nat_, PyVal.na_]]⟩

/-- Example input: a Quote cell spelled `"NONE"` in capitals. -/
def noneSpellingTable : Table :=
  ⟨REQUIRED_COLS,
   [[PyVal.str "W1", PyVal.str "NONE", PyVal.str "", PyVal.str "", PyVal.str "",
     PyVal.str "", PyVal.nan, PyVal.nan]]⟩

/-- Example input: a table that only has a WO column. -/
def woOnlyTable : Table := ⟨["WO"], []⟩

/-- Example input: two raw extra headers that strip to the same name. -/
def dupNotesTable : Table :=
  ⟨REQUIRED_COLS ++ ["Notes", "Notes "],
   [[PyVal.str "W1", PyVal.nan, PyVal.nan, PyVal.nan, PyVal.nan, PyVal.nan, PyVal.nan,
     PyVal.nan, PyVal.str "n1", PyVal.str "n2"]]⟩

/-- The normalized duplicate-extras table: each `Notes` mention selects both
matching columns, giving four `Notes` columns. -/
def dupNotesOut : Table :=
  ⟨REQUIRED_COLS ++ ["Notes", "Notes", "Notes", "Notes"],
   [[PyVal.str "W1", PyVal.str "", PyVal.str "", PyVal.str "", PyVal.str "",
     PyVal.str "", PyVal.nat_, PyVal.na_, PyVal.str "n1", PyVal.str "n2",
     PyVal.str "n1", PyVal.str "n2"]]⟩

/-- Example input: a price whose float value renders in scientific notation. -/
def sciPriceTable : Table :=
  ⟨REQUIRED_COLS,
   [[PyVal.str "W1", PyVal.nan, PyVal.nan, PyVal.nan, PyVal.nan, PyVal.nan, PyVal.nan,
     PyVal.str "0.00001"]]⟩

/-- The normalized scientific-price table: the price cell holds `1e-05`. -/
def sciPriceOut : Table :=
  ⟨REQUIRED_COLS,
   [[PyVal.str "W1", PyVal.str "", PyVal.str "", PyVal.str "", PyVal.str "",
     PyVal.str "", PyVal.nat_, PyVal.num ⟨1, 5⟩]]⟩

/-- Example input: aliased headers in assorted spellings plus an extra column. -/
def aliasedTable : Table :=
  ⟨["  Work   ORDER  ", "quotation", "PO #", "status", "Client Name", "MODEL",
    "Ship Date", "Amount", " Notes "],
   [[PyVal.str "W100", PyVal.nan, PyVal.nan, PyVal.str "Open", PyVal.str "Acme",
     PyVal.str "Widget", PyVal.str "2024-03-15", PyVal.str "$1,234.50", PyVal.str "meta"]]⟩

/-! ### Digit strings -/

/-- Closed form of the fuel-driven digit accumulator. -/
theorem digitsCharsGo_eq (fuel n : Nat) (acc : List Char) (h : n < fuel) :
    digitsCharsGo fuel n acc =
      (if n = 0 then ['0'] else ((Nat.digits 10 n).map dChar).reverse) ++ acc := by
  induction fuel generalizing n acc with
  | zero => omega
  | succ fuel ih =>
    rw [digitsCharsGo]
    by_cases h10 : n < 10
    · rw [if_pos h10]
      by_cases h0 : n = 0
      · subst h0; simp [dChar]
      · rw [if_neg h0]
        have hd : Nat.digits 10 n = [n] := by
          rw [Nat.digits_def' (by norm_num : 1 < 10) (by omega)]
          rw [Nat.mod_eq_of_lt h10, Nat.div_eq_of_lt h10]
          simp
        rw [hd]
        simp
    · rw [if_neg h10]
      have hdivlt : n / 10 < fuel := by
        have : n / 10 < n := Nat.div_lt_self (by omega) (by norm_num)
        omega
      have hdiv0 : n / 10 ≠ 0 := by
        have h1 : 1 ≤ n / 10 := (Nat.one_le_div_iff (by norm_num)).mpr (by omega)
        omega
      rw [ih _ _ hdivlt, if_neg hdiv0]
      have hd : Nat.digits 10 n = n % 10 :: Nat.digits 10 (n / 10) :=
        Nat.digits_def' (by norm_num : 1 < 10) (by omega)
      rw [hd, if_neg (by omega : n ≠ 0)]
      simp

/-- The digit characters of `n`, in terms of `Nat.digits`. -/
theorem digitsChars_eq (n : Nat) :
    digitsChars n = if n = 0 then ['0'] else ((Nat.digits 10 n).map dChar).reverse := by
  rw [digitsChars, digitsCharsGo_eq _ _ _ (Nat.lt_succ_self n)]
  simp

/-- Digit characters are decimal digits. -/
theorem dChar_isDigit {d : Nat} (h : d < 10) : (dChar d).isDigit = true := by
  interval_cases d <;> decide

/-- Digit characters decode to their value. -/
theorem dVal_dChar {d : Nat} (h : d < 10) : dVal (dChar d) = d := by
  interval_cases d <;> decide

/-- Every character of a digit string is a decimal digit. -/
theorem digitsChars_all_digits (n : Nat) : ∀ c ∈ digitsChars n, c.isDigit = true := by
  rw [digitsChars_eq]
  by_cases h0 : n = 0
  · subst h0; intro c hc; simp at hc; subst hc; decide
  · rw [if_neg h0]
    intro c hc
    rw [List.mem_reverse, List.mem_map] at hc
    obtain ⟨d, hd, rfl⟩ := hc
    exact dChar_isDigit (Nat.digits_lt_base (by norm_num) hd)

/-- Digit strings are nonempty. -/
theorem digitsChars_ne_nil (n : Nat) : digitsChars n ≠ [] := by
  rw [digitsChars_eq]
  by_cases h0 : n = 0
  · subst h0; simp
  · rw [if_neg h0]
    simp [Nat.digits_ne_nil_iff_ne_zero.mpr h0]

/-- Reading a digit fold from accumulator `a`. -/
theorem digitsVal_foldl (l : List Char) (a : Nat) :
    l.foldl (fun a c => a * 10 + dVal c) a = a * 10 ^ l.length + digitsVal l := by
  induction l generalizing a with
  | nil => simp [digitsVal]
  | cons c t ih =>
    rw [List.foldl_cons, ih]
    have h2 : digitsVal (c :: t) = dVal c * 10 ^ t.length + digitsVal t := by
      rw [digitsVal, List.foldl_cons, ih]
      simp
    rw [h2, List.length_cons, Nat.pow_succ]
    ring

/-- Digit value of a concatenation. -/
theorem digitsVal_append (l₁ l₂ : List Char) :
    digitsVal (l₁ ++ l₂) = digitsVal l₁ * 10 ^ l₂.length + digitsVal l₂ := by
  rw [digitsVal, List.foldl_append, digitsVal_foldl]
  rfl

/-- Leading zeros do not change a digit string's value. -/
theorem digitsVal_replicate_zero (j : Nat) (l : List Char) :
    digitsVal (List.replicate j '0' ++ l) = digitsVal l := by
  rw [digitsVal_append]
  have : digitsVal (List.replicate j '0') = 0 := by
    induction j with
    | zero => rfl
    | succ j ih =>
      rw [List.replicate_succ, digitsVal, List.foldl_cons]
      have : (0 : Nat) * 10 + dVal '0' = 0 := by decide
      rw [this]
      exact ih
  rw [this]
  simp

/-- Digit strings decode back to their number. -/
theorem digitsVal_digitsChars (n : Nat) : digitsVal (digitsChars n) = n := by
  rw [digitsChars_eq]
  by_cases h0 : n = 0
  · subst h0; decide
  · rw [if_neg h0]
    have main : ∀ ds : List Nat, (∀ d ∈ ds, d < 10) →
        digitsVal ((ds.map dChar).reverse) = Nat.ofDigits 10 ds := by
      intro ds
      induction ds with
      | nil => intro _; simp [digitsVal, Nat.ofDigits_nil]
      | cons d tl ih =>
        intro hlt
        rw [List.map_cons, List.reverse_cons, digitsVal_append]
        rw [ih (fun x hx => hlt x (List.mem_cons_of_mem d hx))]
        have h1 : digitsVal [dChar d] = d := by
          rw [digitsVal, List.foldl_cons]
          simp [dVal_dChar (hlt d (List.mem_cons_self d tl))]
        rw [h1, Nat.ofDigits_cons]
        simp
        ring
    rw [main (Nat.digits 10 n) (fun d hd => Nat.digits_lt_base (by norm_num) hd)]
    exact Nat.ofDigits_digits 10 n

/-- A number below `10 ^ k` has at most `k` digit characters (for positive `k`). -/
theorem digitsChars_length_le {n k : Nat} (hk : 1 ≤ k) (h : n < 10 ^ k) :
    (digitsChars n).length ≤ k := by
  rw [digitsChars_eq]
  by_cases h0 : n = 0
  · subst h0; simpa using hk
  · rw [if_neg h0]
    simp only [List.length_reverse, List.length_map]
    by_contra hlen
    push_neg at hlen
    have h1 : 10 ^ (Nat.digits 10 n).length ≤ 10 * n :=
      Nat.base_pow_length_digits_le 10 n (by norm_num) h0
    have h2 : (10 : Nat) ^ (k + 1) ≤ 10 ^ (Nat.digits 10 n).length :=
      Nat.pow_le_pow_right (by norm_num) hlen
    have h3 : (10 : Nat) * n < 10 * 10 ^ k :=
      Nat.mul_lt_mul_of_le_of_lt (Nat.le_refl 10) h (by norm_num)
    have h4 : (10 : Nat) * 10 ^ k = 10 ^ (k + 1) := by ring
    omega

/-! ### Character classes -/

/-- A decimal digit is not a decimal point. -/
theorem isDigit_ne_dot {c : Char} (h : c.isDigit = true) : (c == '.') = false := by
  by_cases h' : c = '.'
  · subst h'; simp at h
  · exact beq_eq_false_iff_ne.mpr h'

/-- A decimal digit is not a minus sign. -/
theorem isDigit_ne_minus {c : Char} (h : c.isDigit = true) : (c == '-') = false := by
  by_cases h' : c = '-'
  · subst h'; simp at h
  · exact beq_eq_false_iff_ne.mpr h'

/-- A decimal digit is not whitespace. -/
theorem isDigit_not_sp {c : Char} (h : c.isDigit = true) : isSp c = false := by
  cases hsp : isSp c with
  | false => rfl
  | true =>
    exfalso
    simp only [isSp, Bool.or_eq_true, beq_iff_eq] at hsp
    rcases hsp with ((((h' | h') | h') | h') | h') | h' <;> subst h' <;> simp at h

/-- Characters kept by the price filter are not whitespace. -/
theorem priceKeep_not_sp {c : Char} (h : priceKeep c = true) : isSp c = false := by
  simp only [priceKeep, Bool.or_eq_true, beq_iff_eq] at h
  rcases h with (h | h) | h
  · exact isDigit_not_sp h
  · subst h; decide
  · subst h; decide

/-! ### Stripping -/

/-- The head surviving a `dropWhile` fails the predicate. -/
theorem head_dropWhile_false {p : Char → Bool} {l : List Char} {c : Char}
    (h : (l.dropWhile p).head? = some c) : p c = false := by
  induction l with
  | nil => simp [List.dropWhile] at h
  | cons a t ih =>
    rw [List.dropWhile_cons] at h
    by_cases hp : p a
    · simp [hp] at h
      exact ih (by simpa [hp] using h)
    · simp [hp] at h
      subst h
      simpa using hp

/-- A list whose head fails the predicate is unchanged by `dropWhile`. -/
theorem dropWhile_eq_self_of_head {p : Char → Bool} {l : List Char}
    (h : ∀ c ∈ l.head?, p c = false) : l.dropWhile p = l := by
  cases l with
  | nil => rfl
  | cons a t =>
    simp only [List.head?_cons, Option.mem_some_iff] at h
    have := h a rfl
    simp [List.dropWhile_cons, this]

/-- A list of non-whitespace characters is unchanged by `dropWhile isSp`. -/
theorem dropWhile_sp_eq_self {l : List Char} (h : ∀ c ∈ l, isSp c = false) :
    l.dropWhile isSp = l := by
  apply dropWhile_eq_self_of_head
  intro c hc
  cases l with
  | nil => simp at hc
  | cons a t =>
    simp at hc
    subst hc
    exact h a (List.mem_cons_self a t)

/-- Left stripping is idempotent. -/
theorem lstripL_idem (l : List Char) : lstripL (lstripL l) = lstripL l := by
  apply dropWhile_eq_self_of_head
  intro c hc
  exact head_dropWhile_false hc

/-- Right strip produces a front segment of its input. -/
theorem rstripL_append (l : List Char) : ∃ t, rstripL l ++ t = l := by
  refine ⟨(l.reverse.takeWhile isSp).reverse, ?_⟩
  rw [rstripL, ← List.reverse_append, List.takeWhile_append_dropWhile, List.reverse_reverse]

/-- Right stripping is idempotent. -/
theorem rstripL_idem (l : List Char) : rstripL (rstripL l) = rstripL l := by
  rw [rstripL, rstripL, List.reverse_reverse]
  rw [dropWhile_eq_self_of_head (fun c hc => head_dropWhile_false hc)]

/-- Right stripping preserves left-stripped-ness. -/
theorem lstrip_rstrip {l : List Char} (h : lstripL l = l) : lstripL (rstripL l) = rstripL l := by
  apply dropWhile_eq_self_of_head
  intro c hc
  rw [Option.mem_def] at hc
  obtain ⟨t, ht⟩ := rstripL_append l
  cases hr : rstripL l with
  | nil => rw [hr] at hc; simp at hc
  | cons a u =>
    rw [hr] at hc
    simp only [List.head?_cons, Option.some.injEq] at hc
    rw [hr] at ht
    have hhead : l.head? = some a := by rw [← ht]; simp
    rw [← h] at hhead
    have hsp := head_dropWhile_false hhead
    rw [hc] at hsp
    exact hsp

/-- Stripping is idempotent. -/
theorem stripL_idem (l : List Char) : stripL (stripL l) = stripL l := by
  rw [stripL, stripL, lstrip_rstrip (lstripL_idem l), rstripL_idem]

/-- A list of non-whitespace characters is unchanged by stripping. -/
theorem stripL_eq_self {l : List Char} (h : ∀ c ∈ l, isSp c = false) : stripL l = l := by
  rw [stripL, lstripL, dropWhile_sp_eq_self h, rstripL,
    dropWhile_sp_eq_self (fun c hc => h c (List.mem_reverse.mp hc)), List.reverse_reverse]

/-- Stripping a `String` is idempotent. -/
theorem pyStrip_idem (s : String) : pyStrip (pyStrip s) = pyStrip s := by
  rw [pyStrip, pyStrip]
  exact congrArg String.mk (stripL_idem s.data)

/-- Header cleaning ignores an initial strip. -/
theorem clean_header_pyStrip (s : String) : clean_header (pyStrip s) = clean_header s := by
  rw [clean_header, clean_header, pyStrip]
  exact congrArg (fun l => String.mk (lowerL (collapseWs l))) (stripL_idem s.data)

/-! ### Float rendering and parsing -/

/-- `takeWhile` passes over a front segment that satisfies the predicate. -/
theorem takeWhile_append_all {p : Char → Bool} {A : List Char} (B : List Char)
    (h : ∀ c ∈ A, p c = true) : (A ++ B).takeWhile p = A ++ B.takeWhile p := by
  induction A with
  | nil => simp
  | cons a t ih =>
    rw [List.cons_append, List.takeWhile_cons, h a (List.mem_cons_self a t),
      ih (fun c hc => h c (List.mem_cons_of_mem a hc))]
    simp

/-- `dropWhile` passes over a front segment that satisfies the predicate. -/
theorem dropWhile_append_all {p : Char → Bool} {A : List Char} (B : List Char)
    (h : ∀ c ∈ A, p c = true) : (A ++ B).dropWhile p = B.dropWhile p := by
  induction A with
  | nil => simp
  | cons a t ih =>
    rw [List.cons_append, List.dropWhile_cons, h a (List.mem_cons_self a t)]
    simp only [if_pos rfl]
    exact ih (fun c hc => h c (List.mem_cons_of_mem a hc))

/-- All characters of a zero-padded digit string are digits. -/
theorem padZ_all_digits (k : Nat) (n : Nat) :
    ∀ c ∈ padZ k (digitsChars n), c.isDigit = true := by
  intro c hc
  rw [padZ, List.mem_append] at hc
  rcases hc with hc | hc
  · rw [List.eq_of_mem_replicate hc]; decide
  · exact digitsChars_all_digits n c hc

/-- The padded fractional digit string has exactly `k` characters when its
value is below `10 ^ k` and `k` is positive. -/
theorem padZ_length {k n : Nat} (hk : 1 ≤ k) (h : n < 10 ^ k) :
    (padZ k (digitsChars n)).length = k := by
  have hle := digitsChars_length_le hk h
  rw [padZ, List.length_append, List.length_replicate]
  omega

/-- The padded fractional digit string decodes to its value. -/
theorem digitsVal_padZ (k n : Nat) : digitsVal (padZ k (digitsChars n)) = n := by
  rw [padZ, digitsVal_replicate_zero, digitsVal_digitsChars]

/-- Parsing a bare digit string yields its value at scale zero. -/
theorem floatCore_digits (m : Nat) (neg : Bool) :
    floatCore (digitsChars m) neg =
      some ⟨if neg then -(m : Int) else (m : Int), 0⟩ := by
  have hAdig := digitsChars_all_digits m
  have hAnil := digitsChars_ne_nil m
  rw [floatCore]
  have hall : ((digitsChars m).all fun c => c.isDigit || c == '.') = true := by
    rw [List.all_eq_true]
    intro c hc
    simp [hAdig c hc]
  have hany : ((digitsChars m).any fun c => c.isDigit) = true := by
    rw [List.any_eq_true]
    obtain ⟨a, ha⟩ := List.exists_mem_of_ne_nil (digitsChars m) hAnil
    exact ⟨a, ha, hAdig a ha⟩
  have hcount : List.count '.' (digitsChars m) = 0 := by
    rw [List.count_eq_zero]
    intro hmem
    have := hAdig '.' hmem
    simp at this
  rw [if_pos (by rw [hall, hany, hcount]; simp)]
  have htake : List.takeWhile (fun c => !(c == '.')) (digitsChars m) = digitsChars m := by
    rw [List.takeWhile_eq_self_iff]
    intro c hc
    simp [isDigit_ne_dot (hAdig c hc)]
  have hdrop : List.dropWhile (fun c => !(c == '.')) (digitsChars m) = [] := by
    rw [List.dropWhile_eq_nil_iff]
    intro c hc
    simp [isDigit_ne_dot (hAdig c hc)]
  simp only [htake, hdrop, List.drop_nil, List.append_nil, List.length_nil]
  rw [digitsVal_digitsChars]

/-- Parsing a rendered decimal with a fractional part yields the digit
concatenation at the fractional scale. -/
theorem floatCore_render_frac (m k : Nat) (hk : 1 ≤ k) (neg : Bool) :
    floatCore (digitsChars (m / 10 ^ k) ++ '.' :: padZ k (digitsChars (m % 10 ^ k))) neg =
      some ⟨if neg then -(m : Int) else (m : Int), k⟩ := by
  have hAdig := digitsChars_all_digits (m / 10 ^ k)
  have hAnil := digitsChars_ne_nil (m / 10 ^ k)
  have hMod : m % 10 ^ k < 10 ^ k := Nat.mod_lt m (Nat.pos_pow_of_pos k (by norm_num))
  set A := digitsChars (m / 10 ^ k) with hA
  set F := padZ k (digitsChars (m % 10 ^ k)) with hF
  have hFdig : ∀ c ∈ F, c.isDigit = true := padZ_all_digits k (m % 10 ^ k)
  rw [floatCore]
  have hall : ((A ++ '.' :: F).all fun c => c.isDigit || c == '.') = true := by
    rw [List.all_eq_true]
    intro c hc
    rw [List.mem_append] at hc
    rcases hc with hc | hc
    · simp [hAdig c hc]
    · rcases List.mem_cons.mp hc with hc | hc
      · subst hc; simp
      · simp [hFdig c hc]
  have hany : ((A ++ '.' :: F).any fun c => c.isDigit) = true := by
    rw [List.any_eq_true]
    obtain ⟨a, ha⟩ := List.exists_mem_of_ne_nil A hAnil
    exact ⟨a, List.mem_append_left _ ha, hAdig a ha⟩
  have hcount : List.count '.' (A ++ '.' :: F) = 1 := by
    rw [List.count_append, List.count_cons]
    have hA0 : A.count '.' = 0 := by
      rw [List.count_eq_zero]
      intro hmem
      have := hAdig '.' hmem
      simp at this
    have hF0 : F.count '.' = 0 := by
      rw [List.count_eq_zero]
      intro hmem
      have := hFdig '.' hmem
      simp at this
    rw [hA0, hF0]
    simp
  rw [if_pos (by rw [hall, hany, hcount]; simp)]
  have htake : List.takeWhile (fun c => !(c == '.')) (A ++ '.' :: F) = A := by
    rw [takeWhile_append_all _ (fun c hc => by simp [isDigit_ne_dot (hAdig c hc)])]
    rw [List.takeWhile_cons]
    simp
  have hdrop : List.dropWhile (fun c => !(c == '.')) (A ++ '.' :: F) = '.' :: F := by
    rw [dropWhile_append_all _ (fun c hc => by simp [isDigit_ne_dot (hAdig c hc)])]
    rw [List.dropWhile_cons]
    simp
  simp only [htake, hdrop, List.drop_succ_cons, List.drop_zero]
  rw [hF, digitsVal_append, digitsVal_digitsChars, digitsVal_padZ, padZ_length hk hMod]
  have hm : m / 10 ^ k * 10 ^ k + m % 10 ^ k = m := by
    rw [Nat.mul_comm]
    exact Nat.div_add_mod m (10 ^ k)
  rw [hm]

/-- Parsing the plain rendering of a scaled decimal returns it unchanged:
inside the plain-notation range, float re-parsing is exact. -/
theorem pyFloatOfStr_renderPlain (d : Dec) : pyFloatOfStr (renderPlain d) = some d := by
  obtain ⟨m, k⟩ := d
  have hBody : ∀ neg : Bool,
      floatCore (digitsChars (m.natAbs / 10 ^ k) ++
        (if k = 0 then [] else '.' :: padZ k (digitsChars (m.natAbs % 10 ^ k)))) neg =
      some ⟨if neg then -(m.natAbs : Int) else (m.natAbs : Int), k⟩ := by
    intro neg
    by_cases hk : k = 0
    · subst hk
      rw [if_pos rfl, List.append_nil]
      have : m.natAbs / 10 ^ 0 = m.natAbs := by simp
      rw [this, floatCore_digits]
    · rw [if_neg hk]
      exact floatCore_render_frac m.natAbs k (by omega) neg
  rw [renderPlain, pyFloatOfStr]
  by_cases hneg : m < 0
  · rw [if_pos hneg]
    simp only [List.singleton_append, List.cons_append, List.head?_cons, List.tail_cons,
      List.nil_append]
    rw [if_true, hBody true]
    have hAbs : -(m.natAbs : Int) = m := by omega
    rw [if_pos rfl, hAbs]
  · rw [if_neg hneg]
    simp only [List.nil_append]
    have hhead : (digitsChars (m.natAbs / 10 ^ k) ++
        (if k = 0 then [] else '.' :: padZ k (digitsChars (m.natAbs % 10 ^ k)))).head? ≠
        some '-' := by
      cases hO : digitsChars (m.natAbs / 10 ^ k) with
      | nil => exact absurd hO (digitsChars_ne_nil _)
      | cons a t =>
        rw [List.cons_append, List.head?_cons]
        intro hcontra
        have ha : a = '-' := by simpa using hcontra
        have hd := digitsChars_all_digits (m.natAbs / 10 ^ k) a
          (by rw [hO]; exact List.mem_cons_self a t)
        rw [ha] at hd
        simp at hd
    rw [if_neg hhead, hBody false]
    have hAbs : (m.natAbs : Int) = m := by omega
    rw [if_neg (by decide), hAbs]

/-! ### Coercion fixed points -/

/-- Every character of a plain-rendered decimal survives the price filter. -/
theorem renderPlain_all_priceKeep (d : Dec) :
    ∀ c ∈ (renderPlain d).data, priceKeep c = true := by
  intro c hc
  rw [renderPlain] at hc
  simp only [List.mem_append] at hc
  rcases hc with (hc | hc) | hc
  · by_cases hneg : d.mant < 0
    · rw [if_pos hneg] at hc
      simp at hc
      subst hc
      decide
    · rw [if_neg hneg] at hc
      simp at hc
  · simp [priceKeep, digitsChars_all_digits _ c hc]
  · by_cases hk : d.scale = 0
    · rw [if_pos hk] at hc
      simp at hc
    · rw [if_neg hk] at hc
      rcases List.mem_cons.mp hc with hc | hc
      · subst hc; decide
      · simp [priceKeep, padZ_all_digits _ _ c hc]

/-- The plain-rendered decimal has no whitespace, so stripping leaves it
unchanged. -/
theorem pyStrip_renderPlain (d : Dec) : pyStrip (renderPlain d) = renderPlain d := by
  rw [pyStrip, stripL_eq_self (fun c hc => priceKeep_not_sp (renderPlain_all_priceKeep d c hc))]

/-- The plain-rendered decimal is nonempty. -/
theorem renderPlain_data_ne_nil (d : Dec) : (renderPlain d).data ≠ [] := by
  rw [renderPlain]
  intro hcontra
  rcases List.append_eq_nil.mp hcontra with ⟨h1, _⟩
  rcases List.append_eq_nil.mp h1 with ⟨_, h2⟩
  exact digitsChars_ne_nil _ h2

/-- The price coercer is a fixed point on float cells whose value renders in
plain notation: such a number parses back to itself.  Outside that range the
scientific rendering is mangled by the digit filter, so this fails. -/
theorem parse_price_num (d : Dec) (hp : d.plainNotation = true) :
    parse_price_to_float (PyVal.num d) = some d := by
  rw [parse_price_to_float]
  rw [if_neg (by simp)]
  have hs : pyStr (PyVal.num d) = renderPlain d := by
    show renderDec d = renderPlain d
    rw [renderDec, if_pos hp]
  rw [hs]
  rw [if_neg (by
    rw [pyStrip_renderPlain]
    exact fun hcontra => renderPlain_data_ne_nil d (congrArg String.data hcontra))]
  rw [if_neg (by simp [isNA])]
  have hfilter : (renderPlain d).data.filter priceKeep = (renderPlain d).data :=
    List.filter_eq_self.mpr (renderPlain_all_priceKeep d)
  rw [hfilter]
  have hmk : String.mk (renderPlain d).data = renderPlain d := rfl
  rw [hmk]
  exact pyFloatOfStr_renderPlain d

/-- ISO date strings contain no whitespace characters. -/
theorem isoDateStr_not_sp (d : PyDate) : ∀ c ∈ (isoDateStr d).data, isSp c = false := by
  have hP : ∀ (k n : Nat) (c : Char), c ∈ padZ k (digitsChars n) → isSp c = false :=
    fun k n c h => isDigit_not_sp (padZ_all_digits k n c h)
  show ∀ c ∈ (padZ 4 (digitsChars d.year) ++ '-' :: padZ 2 (digitsChars d.month) ++
      '-' :: padZ 2 (digitsChars d.day)), isSp c = false
  simp only [List.forall_mem_append, List.forall_mem_cons]
  exact ⟨⟨fun c hc => hP 4 d.year c hc, by decide, fun c hc => hP 2 d.month c hc⟩,
    by decide, fun c hc => hP 2 d.day c hc⟩

/-- ISO date strings contain no whitespace, so stripping leaves them unchanged. -/
theorem pyStrip_isoDateStr (d : PyDate) : pyStrip (isoDateStr d) = isoDateStr d := by
  rw [pyStrip, stripL_eq_self (isoDateStr_not_sp d)]

/-- ISO date strings have at least ten characters. -/
theorem isoDateStr_length (d : PyDate) : 10 ≤ (isoDateStr d).data.length := by
  rw [isoDateStr]
  simp only [List.length_append, List.length_cons]
  have h4 : 4 ≤ (padZ 4 (digitsChars d.year)).length := by
    rw [padZ, List.length_append, List.length_replicate]
    omega
  have h2m : 2 ≤ (padZ 2 (digitsChars d.month)).length := by
    rw [padZ, List.length_append, List.length_replicate]
    omega
  have h2d : 2 ≤ (padZ 2 (digitsChars d.day)).length := by
    rw [padZ, List.length_append, List.length_replicate]
    omega
  omega

/-- The date coercer is a fixed point on date cells. -/
theorem parse_date_pydate (d : PyDate) : parse_date_to_date (PyVal.pydate d) = some d := by
  rw [parse_date_to_date]
  rw [if_neg (by simp)]
  have hs : pyStr (PyVal.pydate d) = isoDateStr d := rfl
  rw [hs, pyStrip_isoDateStr]
  rw [if_neg (by
    intro hmem
    have hlen := isoDateStr_length d
    simp only [List.mem_cons] at hmem
    rcases hmem with h | h | h | h
    · rw [h] at hlen; simp at hlen
    · rw [h] at hlen; simp at hlen
    · rw [h] at hlen; simp at hlen
    · simp at h)]
  rw [if_neg (by simp [isNA])]
  rfl

/-- The date coercer sends `NaT` to missing. -/
theorem parse_date_natval : parse_date_to_date PyVal.nat_ = Option.none := by decide

/-- The price coercer sends `NA` to missing. -/
theorem parse_price_naval : parse_price_to_float PyVal.na_ = Option.none := by decide

/-- The cleaned text is strip-fixed and is never one of the artifact tokens. -/
theorem cleanText_props (v : PyVal) :
    pyStrip (cleanText v) = cleanText v ∧
      cleanText v ∉ (["nan", "NaN", "None", "<NA>"] : List String) := by
  rw [cleanText]
  by_cases hart : pyStrip (if isNA v then "" else pyStr v) ∈
      (["nan", "NaN", "None", "<NA>"] : List String)
  · rw [if_pos hart]
    exact ⟨by decide, by decide⟩
  · rw [if_neg hart]
    exact ⟨pyStrip_idem _, hart⟩

/-- Cleaning a clean string cell changes nothing. -/
theorem cleanText_fix {s : String} (h1 : pyStrip s = s)
    (h2 : s ∉ (["nan", "NaN", "None", "<NA>"] : List String)) :
    cleanText (PyVal.str s) = s := by
  rw [cleanText]
  have hna : isNA (PyVal.str s) = false := rfl
  rw [hna]
  simp only [if_neg Bool.false_ne_true]
  have hsv : pyStr (PyVal.str s) = s := rfl
  rw [hsv, h1, if_neg h2]

/-- Text coercion is idempotent. -/
theorem cleanCell_idem (v : PyVal) : cleanCell (cleanCell v) = cleanCell v := by
  rw [cleanCell, cleanCell]
  obtain ⟨h1, h2⟩ := cleanText_props v
  rw [cleanText_fix h1 h2]

/-- Date coercion is idempotent. -/
theorem dateCell_idem (v : PyVal) : dateCell (dateCell v) = dateCell v := by
  cases hp : parse_date_to_date v with
  | none =>
    have h1 : dateCell v = PyVal.nat_ := by rw [dateCell, hp]
    rw [h1, dateCell, parse_date_natval]
  | some d =>
    have h1 : dateCell v = PyVal.pydate d := by rw [dateCell, hp]
    rw [h1, dateCell, parse_date_pydate]

/-- Price coercion fixes its output when that output renders in plain
notation; scientific-notation values are the real exception. -/
theorem priceCell_fix {v : PyVal} (h : plainPrice (priceCell v) = true) :
    priceCell (priceCell v) = priceCell v := by
  cases hp : parse_price_to_float v with
  | none =>
    have h1 : priceCell v = PyVal.na_ := by rw [priceCell, hp]
    rw [h1, priceCell, parse_price_naval]
  | some d =>
    have h1 : priceCell v = PyVal.num d := by rw [priceCell, hp]
    rw [h1] at h ⊢
    have hd : d.plainNotation = true := h
    rw [priceCell, parse_price_num d hd]

/-- Row coercion fixes a coerced full row whose price cell renders in plain
notation. -/
theorem coerceRow_fix (w q po stt cu mo da pr : PyVal) (rest : List PyVal)
    (h : plainPrice (priceCell pr) = true) :
    coerceRow (coerceRow (w :: q :: po :: stt :: cu :: mo :: da :: pr :: rest)) =
      coerceRow (w :: q :: po :: stt :: cu :: mo :: da :: pr :: rest) := by
  rw [coerceRow, coerceRow]
  rw [cleanCell_idem, cleanCell_idem, cleanCell_idem, cleanCell_idem, cleanCell_idem,
    cleanCell_idem]
  have hd : dateCell (dateCell da) = dateCell da := dateCell_idem da
  have hpp : priceCell (priceCell pr) = priceCell pr := priceCell_fix h
  rw [hd, hpp]

/-! ### Column resolution -/

/-- A successful association-list lookup pairs the key with a stored value. -/
theorem lookup_mem {l : List (String × String)} {k v : String}
    (h : l.lookup k = some v) : (k, v) ∈ l := by
  induction l with
  | nil => simp [List.lookup] at h
  | cons p t ih =>
    obtain ⟨a, b⟩ := p
    rw [List.lookup] at h
    by_cases hk : (k == a) = true
    · rw [hk] at h
      simp only [Option.some.injEq] at h
      subst h
      have hka : k = a := eq_of_beq hk
      subst hka
      exact List.mem_cons_self _ _
    · rw [Bool.eq_false_iff.mpr hk] at h
      exact List.mem_cons_of_mem _ (ih h)

/-- Every alias value is a required canonical column, is strip-fixed, and is a
fixed point of the resolver. -/
theorem alias_values_fixed :
    ∀ p ∈ COLUMN_ALIASES, p.2 ∈ REQUIRED_COLS ∧ pyStrip p.2 = p.2 ∧
      resolveHeader p.2 = p.2 := by decide

/-- Every required canonical column name resolves to itself. -/
theorem resolveHeader_required : ∀ n ∈ REQUIRED_COLS, resolveHeader n = n := by decide

/-- The resolver definition as an equation. -/
theorem resolveHeader_def (c : String) :
    resolveHeader c = pyStrip ((COLUMN_ALIASES.lookup (clean_header c)).getD (pyStrip c)) := rfl

/-- Header resolution is idempotent. -/
theorem resolveHeader_idem (c : String) : resolveHeader (resolveHeader c) = resolveHeader c := by
  cases h : COLUMN_ALIASES.lookup (clean_header c) with
  | none =>
    have h1 : resolveHeader c = pyStrip c := by
      rw [resolveHeader_def, h, Option.getD_none, pyStrip_idem]
    rw [h1, resolveHeader_def, clean_header_pyStrip, h, Option.getD_none, pyStrip_idem,
      pyStrip_idem]
  | some can =>
    obtain ⟨_, hstrip, hfix⟩ := alias_values_fixed _ (lookup_mem h)
    have h1 : resolveHeader c = can := by
      rw [resolveHeader_def, h, Option.getD_some, hstrip]
    rw [h1, hfix]

/-- A resolved header that is not canonical resolves from a failed lookup. -/
theorem resolveHeader_not_required {c : String}
    (h : resolveHeader c ∉ REQUIRED_COLS) :
    COLUMN_ALIASES.lookup (clean_header c) = Option.none := by
  cases hl : COLUMN_ALIASES.lookup (clean_header c) with
  | none => rfl
  | some can =>
    obtain ⟨hmem, hstrip, _⟩ := alias_values_fixed _ (lookup_mem hl)
    exfalso
    apply h
    rw [resolveHeader_def, hl, Option.getD_some, hstrip]
    exact hmem

/-! ### Column indexing -/

/-- `findIdx` skips a front segment on which the predicate fails. -/
theorem findIdx_append_of_none {p : String → Bool} {l₁ : List String} (l₂ : List String)
    (h : ∀ a ∈ l₁, p a = false) :
    (l₁ ++ l₂).findIdx p = l₁.length + l₂.findIdx p := by
  induction l₁ with
  | nil => simp
  | cons a t ih =>
    rw [List.cons_append, List.findIdx_cons, h a (List.mem_cons_self a t)]
    rw [ih (fun x hx => h x (List.mem_cons_of_mem a hx))]
    simp only [cond_false, List.length_cons]
    omega

/-- Searching for a member by equality stays in bounds. -/
theorem findIdx_mem_lt {l : List String} {e : String} (h : e ∈ l) :
    l.findIdx (fun c => c == e) < l.length :=
  List.findIdx_lt_length_of_exists ⟨e, h, by simp⟩

/-- The element found by an equality search is the one searched for. -/
theorem get_findIdx_self {l : List String} {e : String} (h : e ∈ l) :
    l.get ⟨l.findIdx (fun c => c == e), findIdx_mem_lt h⟩ = e := by
  have hp := @List.findIdx_getElem _ (fun c => c == e) l (findIdx_mem_lt h)
  rw [List.get_eq_getElem]
  exact eq_of_beq hp

/-! ### Pipeline structure -/

/-- A failing required-column check makes the pipeline raise the schema error,
before any row is touched. -/
theorem normalize_df_missing (t : Table)
    (hmiss : REQUIRED_COLS.filter
      (fun c => !((standardize_columns t).headers.contains c)) ≠ []) :
    normalize_df t = Except.error
      ⟨REQUIRED_COLS.filter (fun c => !((standardize_columns t).headers.contains c)),
       (standardize_columns t).headers⟩ := by
  simp only [normalize_df]
  rw [if_neg hmiss]

/-- Structure of a successful pipeline run: the required-column check
passed, the output headers are the selection of the required columns
followed by the extras, and every output row is a coerced selection of an
input row that passed all three row filters. -/
theorem normalize_df_ok_rows (t out : Table) (h : normalize_df t = Except.ok out) :
    REQUIRED_COLS.filter (fun c => !((standardize_columns t).headers.contains c)) = [] ∧
    out.headers = selHeaders (standardize_columns t).headers
      (REQUIRED_COLS ++ (standardize_columns t).headers.filter
        (fun c => !(REQUIRED_COLS.contains c))) ∧
    ∀ r ∈ out.rows,
      (∃ r0 ∈ (standardize_columns t).rows,
        r = coerceRow (selRow (standardize_columns t).headers
          (REQUIRED_COLS ++ (standardize_columns t).headers.filter
            (fun c => !(REQUIRED_COLS.contains c))) r0) ∧
        allNA8 (selRow (standardize_columns t).headers
          (REQUIRED_COLS ++ (standardize_columns t).headers.filter
            (fun c => !(REQUIRED_COLS.contains c))) r0) = false) ∧
      summaryLike r = false ∧ blankLike r = false := by
  simp only [normalize_df] at h
  split at h
  · rename_i hm
    rw [Except.ok.injEq] at h
    subst h
    refine ⟨hm, rfl, ?_⟩
    intro r hr
    simp only [List.mem_filter, List.mem_map, Bool.not_eq_eq_eq_not, Bool.not_true] at hr
    obtain ⟨⟨⟨r1, ⟨⟨r0, hr0, hsel⟩, hna⟩, hco⟩, hsum⟩, hblank⟩ := hr
    subst hco
    subst hsel
    exact ⟨⟨r0, hr0, rfl, by simpa using hna⟩, by simpa using hsum, by simpa using hblank⟩
  · exact absurd h (by simp)

/-- A successful ISO parse consumes at least the ten characters of
`YYYY-MM-DD`. -/
theorem isoParse_length {cs : List Char} {dt : PyDateTime} (h : isoParse cs = some dt) :
    10 ≤ cs.length := by
  rw [isoParse.eq_def] at h
  split at h
  · rename_i y1 y2 y3 y4 m1 m2 d1 d2 rest
    simp only [List.length_cons]
    omega
  · simp at h

/-! ### Claims about the single-cell coercers -/

/-- C1: whenever at least one required canonical column is absent after
alias-based header resolution, `normalize_df` fails with a `SchemaError`
whose missing list is exactly the absent required columns (in canonical
order) and whose found list is the resolved columns; the failure happens
before any row selection, coercion or filtering, so no partial table is
returned. -/
theorem C1_schema_error (t : Table)
    (hmiss : REQUIRED_COLS.filter
      (fun c => !((standardize_columns t).headers.contains c)) ≠ []) :
    normalize_df t = Except.error
      ⟨REQUIRED_COLS.filter (fun c => !((standardize_columns t).headers.contains c)),
       (standardize_columns t).headers⟩ ∧
    ∀ c, (c ∈ REQUIRED_COLS.filter
        (fun c => !((standardize_columns t).headers.contains c))) ↔
      (c ∈ REQUIRED_COLS ∧ c ∉ (standardize_columns t).headers) := by
  refine ⟨normalize_df_missing t hmiss, ?_⟩
  intro c
  rw [List.mem_filter]
  constructor
  · rintro ⟨h1, h2⟩
    refine ⟨h1, fun hmem => ?_⟩
    rw [Bool.not_eq_eq_eq_not, Bool.not_true] at h2
    rw [List.contains_eq_any_beq] at h2
    rw [List.any_eq_false] at h2
    exact (h2 c hmem) (by simp)
  · rintro ⟨h1, h2⟩
    refine ⟨h1, ?_⟩
    rw [Bool.not_eq_eq_eq_not, Bool.not_true, List.contains_eq_any_beq, List.any_eq_false]
    intro a ha
    intro hac
    have : c = a := eq_of_beq hac
    subst this
    exact h2 ha

/-- C1 witness: a table having only a `WO` column fails with the seven other
required columns listed as missing and `WO` listed as found. -/
theorem C1_schema_error_witness :
    normalize_df woOnlyTable = Except.error
      ⟨["Quote", "PO Number", "Status", "Customer Name", "Model Description",
        "Scheduled Date", "Price"], ["WO"]⟩ := by
  have h := (C1_schema_error woOnlyTable (by decide)).1
  rw [h]
  decide

/-- C2 counterexample: a row whose only nonempty field is Quote survives
`normalize_df` with WO, Customer Name and Model Description all empty, so the
key-field candidate invariant does not hold of the pipeline's output. -/
theorem C2_counterexample :
    (normalize_df quoteOnlyTable).map (fun u => u.rows.map (fun r =>
      [r.getD 0 PyVal.nan, r.getD 4 PyVal.nan, r.getD 5 PyVal.nan])) =
      Except.ok [[PyVal.str "", PyVal.str "", PyVal.str ""]] := by decide

/-- C2 (amended): `normalize_df` guarantees only the blank-row invariant: no
output row has all six text fields empty together with a missing date and a
missing price.  A row with WO, Customer Name and Model Description all empty
can still appear when some other field is populated; the
at-least-one-of-three key-field filter is applied by the table-view
apply-changes handler, not by `normalize_df`. -/
theorem C2_amended (t out : Table) (h : normalize_df t = Except.ok out) :
    ∀ r ∈ out.rows,
      ¬(strAt r 0 = "" ∧ strAt r 1 = "" ∧ strAt r 2 = "" ∧ strAt r 3 = "" ∧
        strAt r 4 = "" ∧ strAt r 5 = "" ∧ isNA (r.getD 6 PyVal.nan) = true ∧
        isNA (r.getD 7 PyVal.nan) = true) := by
  intro r hr
  obtain ⟨_, _, hblank⟩ := (normalize_df_ok_rows t out h).2.2 r hr
  rintro ⟨h0, h1, h2, h3, h4, h5, h6, h7⟩
  have htrue : blankLike r = true := by
    rw [blankLike, h0, h1, h2, h3, h4, h5, h6, h7]
    decide
  rw [htrue] at hblank
  exact absurd hblank (by decide)

/-- C2 witness: the retained order row of the summary example is not blank. -/
theorem C2_amended_witness :
    ¬(strAt [PyVal.str "42", PyVal.str "", PyVal.str "", PyVal.str "", PyVal.str "",
        PyVal.str "", PyVal.nat_, PyVal.na_] 0 = "" ∧
      strAt [PyVal.str "42", PyVal.str "", PyVal.str "", PyVal.str "", PyVal.str "",
        PyVal.str "", PyVal.nat_, PyVal.na_] 1 = "" ∧
      strAt [PyVal.str "42", PyVal.str "", PyVal.str "", PyVal.str "", PyVal.str "",
        PyVal.str "", PyVal.nat_, PyVal.na_] 2 = "" ∧
      strAt [PyVal.str "42", PyVal.str "", PyVal.str "", PyVal.str "", PyVal.str "",
        PyVal.str "", PyVal.nat_, PyVal.na_] 3 = "" ∧
      strAt [PyVal.str "42", PyVal.str "", PyVal.str "", PyVal.str "", PyVal.str "",
        PyVal.str "", PyVal.nat_, PyVal.na_] 4 = "" ∧
      strAt [PyVal.str "42", PyVal.str "", PyVal.str "", PyVal.str "", PyVal.str "",
        PyVal.str "", PyVal.nat_, PyVal.na_] 5 = "" ∧
      isNA ([PyVal.str "42", PyVal.str "", PyVal.str "", PyVal.str "", PyVal.str "",
        PyVal.str "", PyVal.nat_, PyVal.na_].getD 6 PyVal.nan) = true ∧
      isNA ([PyVal.str "42", PyVal.str "", PyVal.str "", PyVal.str "", PyVal.str "",
        PyVal.str "", PyVal.nat_, PyVal.na_].getD 7 PyVal.nan) = true) :=
  C2_amended summaryNoPriceTable
    ⟨REQUIRED_COLS, [[PyVal.str "42", PyVal.str "", PyVal.str "", PyVal.str "",
      PyVal.str "", PyVal.str "", PyVal.nat_, PyVal.na_]]⟩ (by decide)
    _ (by decide)

/-- C3 counterexample: on `"1-2"` the implementation keeps the embedded minus
sign, so the float parse fails and the result is missing, while the claim's
rule (strip any minus that is not leading) yields the residue `"12"` and the
value 12. -/
theorem C3_counterexample :
    parse_price_to_float (PyVal.str "1-2") = Option.none ∧
      claimCoercePrice "1-2" = some ⟨12, 0⟩ := by decide

/-- C3 (amended): the three spec examples hold, and in general the coercer
strips `$`, commas, and every character that is not a digit, a decimal point,
or a minus sign — the minus is kept wherever it occurs, not only in leading
position — then parses the residue, returning missing on parse failure (for
example whenever a minus is embedded). -/
theorem C3_amended :
    (parse_price_to_float (PyVal.str "$1,234.50") = some ⟨123450, 2⟩ ∧
      Dec.toRat ⟨123450, 2⟩ = (2469 : ℚ) / 2) ∧
    parse_price_to_float (PyVal.str "") = Option.none ∧
    parse_price_to_float (PyVal.str "abc") = Option.none ∧
    ∀ s : String, parse_price_to_float (PyVal.str s) =
      (if pyStrip s = "" then Option.none
       else pyFloatOfStr (String.mk (s.data.filter priceKeep))) := by
  refine ⟨⟨by decide, by norm_num [Dec.toRat]⟩, by decide, by decide, ?_⟩
  intro s
  rw [parse_price_to_float, if_neg (by simp)]
  have h1 : pyStr (PyVal.str s) = s := rfl
  rw [h1]
  by_cases hs : pyStrip s = ""
  · rw [if_pos hs, if_pos hs]
  · rw [if_neg hs, if_neg hs]
    have h2 : isNA (PyVal.str s) = false := rfl
    rw [h2]
    rw [if_neg (by decide : ¬(false = true))]

/-- C4: the spec examples hold; the empty string and the tokens `none` and
`nat` (case-insensitively, after trimming) coerce to missing, any value the
permissive parse rejects coerces to missing, and every successfully parsed
value is truncated to its calendar date, with no time component. -/
theorem C4_date_coercion :
    parse_date_to_date (PyVal.str "2024-03-15") = some ⟨2024, 3, 15⟩ ∧
    parse_date_to_date (PyVal.str "NaT") = Option.none ∧
    parse_date_to_date (PyVal.str "") = Option.none ∧
    (∀ s : String, lowerS (pyStrip s) ∈ (["", "none", "nat"] : List String) →
      parse_date_to_date (PyVal.str s) = Option.none) ∧
    (∀ s : String, pdToDatetime (PyVal.str s) = Option.none →
      parse_date_to_date (PyVal.str s) = Option.none) ∧
    (∀ (s : String) (dt : PyDateTime), pdToDatetime (PyVal.str s) = some dt →
      parse_date_to_date (PyVal.str s) = some dt.dateOf) := by
  have hlen : ∀ s : String, (pyStrip s).data.length ≤ 4 →
      isoParse (stripL s.data) = Option.none := by
    intro s hle
    cases hi : isoParse (stripL s.data) with
    | none => rfl
    | some dt =>
      have h10 := isoParse_length hi
      have : (pyStrip s).data = stripL s.data := rfl
      rw [this] at hle
      omega
  refine ⟨by decide, by decide, by decide, ?_, ?_, ?_⟩
  · intro s hs
    rw [parse_date_to_date, if_neg (by simp)]
    have h1 : pyStr (PyVal.str s) = s := rfl
    rw [h1]
    by_cases htok : pyStrip s ∈ (["", "None", "NaT"] : List String)
    · rw [if_pos htok]
    · rw [if_neg htok]
      have h2 : isNA (PyVal.str s) = false := rfl
      rw [h2, if_neg (by decide : ¬(false = true))]
      have hlow : ((lowerS (pyStrip s)).data).length = ((pyStrip s).data).length := by
        rw [lowerS]
        exact List.length_map _ _
      have hshort : (pyStrip s).data.length ≤ 4 := by
        simp only [List.mem_cons] at hs
        rcases hs with h | h | h | h
        · rw [h] at hlow
          have he : ("" : String).data.length = 0 := rfl
          omega
        · rw [h] at hlow
          have he : ("none" : String).data.length = 4 := rfl
          omega
        · rw [h] at hlow
          have he : ("nat" : String).data.length = 3 := rfl
          omega
        · simp at h
      have hno := hlen s hshort
      have hpd : pdToDatetime (PyVal.str s) = isoParse (stripL s.data) := rfl
      rw [hpd, hno]
      rfl
  · intro s hp
    rw [parse_date_to_date, if_neg (by simp)]
    have h1 : pyStr (PyVal.str s) = s := rfl
    rw [h1]
    by_cases htok : pyStrip s ∈ (["", "None", "NaT"] : List String)
    · rw [if_pos htok]
    · rw [if_neg htok]
      have h2 : isNA (PyVal.str s) = false := rfl
      rw [h2, if_neg (by decide : ¬(false = true)), hp]
      rfl
  · intro s dt hp
    rw [parse_date_to_date, if_neg (by simp)]
    have h1 : pyStr (PyVal.str s) = s := rfl
    rw [h1]
    have htok : pyStrip s ∉ (["", "None", "NaT"] : List String) := by
      intro hmem
      have hshort : (pyStrip s).data.length ≤ 4 := by
        simp only [List.mem_cons] at hmem
        rcases hmem with h | h | h | h
        · rw [h]; decide
        · rw [h]; decide
        · rw [h]; decide
        · simp at h
      have hno := hlen s hshort
      have hpd : pdToDatetime (PyVal.str s) = isoParse (stripL s.data) := rfl
      rw [hpd, hno] at hp
      exact absurd hp (by simp)
    rw [if_neg htok]
    have h2 : isNA (PyVal.str s) = false := rfl
    rw [h2, if_neg (by decide : ¬(false = true)), hp]
    rfl

/-- C4 witness: a cased ``none`` token, an unparseable string, and a
timestamp truncated to its date. -/
theorem C4_date_coercion_witness :
    parse_date_to_date (PyVal.str " nOnE ") = Option.none ∧
    parse_date_to_date (PyVal.str "hello") = Option.none ∧
    parse_date_to_date (PyVal.str "2024-03-15 12:30:00") = some ⟨2024, 3, 15⟩ :=
  ⟨C4_date_coercion.2.2.2.1 " nOnE " (by decide),
   C4_date_coercion.2.2.2.2.1 "hello" (by decide),
   C4_date_coercion.2.2.2.2.2 "2024-03-15 12:30:00" ⟨⟨2024, 3, 15⟩, 45000⟩ (by decide)⟩

/-! ### Claims about the row filters -/

/-- C5: after coercion the Row Filter removes every summary-like row — no
output row satisfies the summary predicate — and on the spec's example the
digits-only row with a price is removed while the identical row with a
missing price is retained. -/
theorem C5_summary_filter (t out : Table) (h : normalize_df t = Except.ok out) :
    (∀ r ∈ out.rows, summaryLike r = false) ∧
    normalize_df summaryRowTable = Except.ok ⟨REQUIRED_COLS, []⟩ ∧
    normalize_df summaryNoPriceTable = Except.ok
      ⟨REQUIRED_COLS, [[PyVal.str "42", PyVal.str "", PyVal.str "", PyVal.str "",
        PyVal.str "", PyVal.str "", PyVal.nat_, PyVal.na_]]⟩ := by
  refine ⟨?_, by decide, by decide⟩
  intro r hr
  exact ((normalize_df_ok_rows t out h).2.2 r hr).2.1

/-- C5 witness: the retained row of the example is indeed not summary-like. -/
theorem C5_summary_filter_witness :
    summaryLike [PyVal.str "42", PyVal.str "", PyVal.str "", PyVal.str "",
      PyVal.str "", PyVal.str "", PyVal.nat_, PyVal.na_] = false :=
  (C5_summary_filter summaryNoPriceTable
      ⟨REQUIRED_COLS, [[PyVal.str "42", PyVal.str "", PyVal.str "", PyVal.str "",
        PyVal.str "", PyVal.str "", PyVal.nat_, PyVal.na_]]⟩ (by decide)).1
    _ (by decide)

/-- C6 counterexample: a Quote cell spelled `"NONE"` in capitals is not
replaced by the empty string — the artifact replacement is exact-match, not
case-insensitive. -/
theorem C6_counterexample :
    (normalize_df noneSpellingTable).map (fun u => u.rows.map (fun r =>
      r.getD 1 PyVal.nan)) = Except.ok [PyVal.str "NONE"] := by decide

/-- `contains` implies membership. -/
theorem mem_of_contains {l : List String} {a : String} (h : l.contains a = true) :
    a ∈ l := by
  rw [List.contains_eq_any_beq, List.any_eq_true] at h
  obtain ⟨x, hx, hax⟩ := h
  have hxa : a = x := eq_of_beq hax
  rw [hxa]
  exact hx

/-- If the missing-columns filter is empty, every required column is present
among the resolved headers. -/
theorem required_mem_of_filter_nil {hs : List String}
    (h : REQUIRED_COLS.filter (fun c => !(hs.contains c)) = []) :
    ∀ n ∈ REQUIRED_COLS, n ∈ hs := by
  intro n hn
  rw [List.filter_eq_nil_iff] at h
  have hne := h n hn
  apply mem_of_contains
  cases hc : hs.contains n with
  | true => rfl
  | false => exact absurd (by rw [hc]; rfl) hne

/-- In duplicate-free headers a name filters to exactly itself. -/
theorem filter_beq_singleton {l : List String} (hn : l.Nodup) {a : String}
    (ha : a ∈ l) : l.filter (fun c => c == a) = [a] := by
  induction l with
  | nil => cases ha
  | cons b t ih =>
    rw [List.nodup_cons] at hn
    rw [List.filter_cons]
    rcases List.mem_cons.mp ha with hab | hat
    · rw [← hab] at hn ⊢
      rw [if_pos (by simp)]
      have ht : t.filter (fun c => c == a) = [] := by
        rw [List.filter_eq_nil_iff]
        intro x hx hxa
        exact hn.1 (eq_of_beq hxa ▸ hx)
      rw [ht]
    · have hb : ¬ ((b == a) = true) := by
        intro hba
        rw [eq_of_beq hba] at hn
        exact hn.1 hat
      rw [if_neg hb]
      exact ih hn.2 hat

/-- A function with singleton values flattens to a map. -/
theorem flatMap_singleton_eq_map {α β : Type} (f : α → List β) (g : α → β)
    (l : List α) (h : ∀ a ∈ l, f a = [g a]) : l.flatMap f = l.map g := by
  induction l with
  | nil => rfl
  | cons a t ih =>
    rw [List.flatMap_cons, h a (List.mem_cons_self a t),
      ih (fun x hx => h x (List.mem_cons_of_mem a hx)), List.map_cons]
    rfl

/-- A name absent from the headers matches no position. -/
theorem matchIdxs_nil_of_not_mem {l : List String} {n : String} (h : n ∉ l) :
    matchIdxs l n = [] := by
  induction l with
  | nil => rfl
  | cons c t ih =>
    rw [matchIdxs]
    have hc : ¬ ((c == n) = true) := by
      intro hcn
      exact h (by rw [← eq_of_beq hcn]; exact List.mem_cons_self c t)
    rw [if_neg hc, ih (fun hm => h (List.mem_cons_of_mem c hm))]
    rfl

/-- A present name matches at least one position. -/
theorem matchIdxs_ne_nil_of_mem {l : List String} {n : String} (h : n ∈ l) :
    matchIdxs l n ≠ [] := by
  induction l with
  | nil => cases h
  | cons c t ih =>
    rw [matchIdxs]
    by_cases hc : (c == n) = true
    · rw [if_pos hc]
      exact List.cons_ne_nil _ _
    · rw [if_neg hc]
      have hnt : n ∈ t := by
        rcases List.mem_cons.mp h with h1 | h1
        · exact absurd (beq_iff_eq.mpr h1.symm) hc
        · exact h1
      intro hmap
      exact ih hnt (List.map_eq_nil_iff.mp hmap)

/-- In duplicate-free headers a present name matches exactly the position
`findIdx` reports. -/
theorem matchIdxs_nodup {l : List String} (hn : l.Nodup) {e : String}
    (he : e ∈ l) : matchIdxs l e = [l.findIdx (fun c => c == e)] := by
  induction l with
  | nil => cases he
  | cons c t ih =>
    rw [List.nodup_cons] at hn
    rw [matchIdxs, List.findIdx_cons]
    by_cases hc : (c == e) = true
    · rw [if_pos hc]
      have hnot : e ∉ t := by
        rw [← eq_of_beq hc]
        exact hn.1
      rw [matchIdxs_nil_of_not_mem hnot, hc]
      rfl
    · have hcf : (c == e) = false := Bool.eq_false_iff.mpr hc
      rw [if_neg hc, hcf]
      have het : e ∈ t := by
        rcases List.mem_cons.mp he with h1 | h1
        · exact absurd (beq_iff_eq.mpr h1.symm) hc
        · exact h1
      rw [ih hn.2 het]
      rfl

/-- Under duplicate-free headers, label selection of a row is the positional
map over the mentioned names. -/
theorem selRow_nodup {hs : List String} (hn : hs.Nodup) {O : List String}
    (hsub : ∀ n ∈ O, n ∈ hs) (r : List PyVal) :
    selRow hs O r =
      O.map (fun n => r.getD (hs.findIdx (fun c => c == n)) PyVal.nan) := by
  rw [selRow]
  apply flatMap_singleton_eq_map
  intro n hnO
  rw [matchIdxs_nodup hn (hsub n hnO)]
  rfl

/-- Under duplicate-free headers, selecting a list of present names
reproduces that list. -/
theorem selHeaders_nodup {hs : List String} (hn : hs.Nodup) {O : List String}
    (hsub : ∀ n ∈ O, n ∈ hs) : selHeaders hs O = O := by
  rw [selHeaders, flatMap_singleton_eq_map _ (fun n => n) O
    (fun n hnO => filter_beq_singleton hn (hsub n hnO))]
  exact List.map_id' O

/-- Flattening over nonempty pieces is at least as long as the index list. -/
theorem length_le_flatMap {α β : Type} (f : α → List β) (l : List α)
    (h : ∀ a ∈ l, f a ≠ []) : l.length ≤ (l.flatMap f).length := by
  induction l with
  | nil => simp
  | cons a t ih =>
    rw [List.flatMap_cons, List.length_append, List.length_cons]
    have h1 : 1 ≤ (f a).length := by
      cases hf : f a with
      | nil => exact absurd hf (h a (List.mem_cons_self a t))
      | cons x xs => exact Nat.succ_le_succ (Nat.zero_le _)
    have h2 := ih (fun x hx => h x (List.mem_cons_of_mem a hx))
    omega

/-- A list of length at least eight splits into eight cells and a tail. -/
theorem exists_cons8 {s : List PyVal} (h : 8 ≤ s.length) :
    ∃ a0 a1 a2 a3 a4 a5 a6 a7 tl,
      s = a0 :: a1 :: a2 :: a3 :: a4 :: a5 :: a6 :: a7 :: tl := by
  rcases s with _ | ⟨a0, _ | ⟨a1, _ | ⟨a2, _ | ⟨a3, _ | ⟨a4, _ | ⟨a5,
    _ | ⟨a6, _ | ⟨a7, tl⟩⟩⟩⟩⟩⟩⟩⟩
  · simp at h
  · simp at h
  · simp at h
  · simp at h
  · simp at h
  · simp at h
  · simp at h
  · simp at h
  · exact ⟨a0, a1, a2, a3, a4, a5, a6, a7, tl, rfl⟩

/-- Mapping a per-name cell function over the required-then-extras name list
lays the eight required results out at positions 0 through 7. -/
theorem selMap_req_append (f : String → PyVal) (E : List String) :
    (REQUIRED_COLS ++ E).map f =
      f "WO" :: f "Quote" :: f "PO Number" :: f "Status" :: f "Customer Name" ::
      f "Model Description" :: f "Scheduled Date" :: f "Price" :: E.map f := rfl

/-- C6 (amended): in every output row each of the six text fields is a string
cell holding a trimmed string, and a cell is replaced by the empty string
exactly when its trimmed form equals one of the four literal artifacts
`"nan"`, `"NaN"`, `"None"`, `"<NA>"` — so no output text cell is one of those
four strings, but other spellings such as `"NONE"` are kept verbatim. -/
theorem C6_amended (t out : Table) (h : normalize_df t = Except.ok out) :
    ∀ r ∈ out.rows, ∀ i, i < 6 → ∃ s : String,
      r.getD i PyVal.nan = PyVal.str s ∧ pyStrip s = s ∧
      s ∉ (["nan", "NaN", "None", "<NA>"] : List String) := by
  intro r hr i hi
  obtain ⟨hmiss, _, hrows⟩ := normalize_df_ok_rows t out h
  obtain ⟨⟨r0, _, hco, _⟩, _, _⟩ := hrows r hr
  have hO : ∀ n ∈ REQUIRED_COLS ++ (standardize_columns t).headers.filter
      (fun c => !(REQUIRED_COLS.contains c)), n ∈ (standardize_columns t).headers := by
    intro n hn
    rcases List.mem_append.mp hn with hn | hn
    · exact required_mem_of_filter_nil hmiss n hn
    · exact List.mem_of_mem_filter hn
  have hlen : 8 ≤ (selRow (standardize_columns t).headers
      (REQUIRED_COLS ++ (standardize_columns t).headers.filter
        (fun c => !(REQUIRED_COLS.contains c))) r0).length := by
    have hstep := length_le_flatMap
      (fun n => (matchIdxs (standardize_columns t).headers n).map
        (fun i => r0.getD i PyVal.nan))
      (REQUIRED_COLS ++ (standardize_columns t).headers.filter
        (fun c => !(REQUIRED_COLS.contains c)))
      (fun n hn hnil => matchIdxs_ne_nil_of_mem (hO n hn)
        (List.map_eq_nil_iff.mp hnil))
    have h8 : (8 : Nat) ≤ (REQUIRED_COLS ++ (standardize_columns t).headers.filter
        (fun c => !(REQUIRED_COLS.contains c))).length := by
      rw [List.length_append]
      have hreq8 : REQUIRED_COLS.length = 8 := rfl
      omega
    rw [selRow]
    exact le_trans h8 hstep
  obtain ⟨a0, a1, a2, a3, a4, a5, a6, a7, tl, hsplit⟩ := exists_cons8 hlen
  rw [hsplit] at hco
  rw [coerceRow] at hco
  subst hco
  interval_cases i <;>
    exact ⟨_, rfl, (cleanText_props _).1, (cleanText_props _).2⟩

/-- C6 witness: the Status field of the retained summary-example row is the
clean empty string. -/
theorem C6_amended_witness :
    ∃ s : String,
      ([PyVal.str "42", PyVal.str "", PyVal.str "", PyVal.str "", PyVal.str "",
        PyVal.str "", PyVal.nat_, PyVal.na_] : List PyVal).getD 3 PyVal.nan =
        PyVal.str s ∧ pyStrip s = s ∧
      s ∉ (["nan", "NaN", "None", "<NA>"] : List String) :=
  C6_amended summaryNoPriceTable
    ⟨REQUIRED_COLS, [[PyVal.str "42", PyVal.str "", PyVal.str "", PyVal.str "",
      PyVal.str "", PyVal.str "", PyVal.nat_, PyVal.na_]]⟩ (by decide)
    _ (by decide) 3 (by decide)

/-! ### Claims about the Column Resolver -/

/-- C7: a header whose cleaned spelling (trim, collapse whitespace runs,
lowercase) is an alias key is renamed to that key's canonical column; two
spellings with the same cleaned form that hit the alias table resolve
identically; and a header whose cleaned form misses the table is kept as-is,
trimmed. -/
theorem C7_resolver :
    (∀ h can : String, COLUMN_ALIASES.lookup (clean_header h) = some can →
      resolveHeader h = can) ∧
    (∀ h₁ h₂ : String, clean_header h₁ = clean_header h₂ →
      (COLUMN_ALIASES.lookup (clean_header h₁)).isSome = true →
      resolveHeader h₁ = resolveHeader h₂) ∧
    (∀ h : String, COLUMN_ALIASES.lookup (clean_header h) = Option.none →
      resolveHeader h = pyStrip h) := by
  have hfound : ∀ h can : String, COLUMN_ALIASES.lookup (clean_header h) = some can →
      resolveHeader h = can := by
    intro h can hl
    obtain ⟨_, hstrip, _⟩ := alias_values_fixed _ (lookup_mem hl)
    rw [resolveHeader_def, hl, Option.getD_some, hstrip]
  refine ⟨hfound, ?_, ?_⟩
  · intro h1 h2 heq hsome
    rw [Option.isSome_iff_exists] at hsome
    obtain ⟨can, hcan⟩ := hsome
    rw [hfound h1 can hcan, hfound h2 can (by rw [← heq]; exact hcan)]
  · intro h hl
    rw [resolveHeader_def, hl, Option.getD_none, pyStrip_idem]

/-- C7 witness: variant spellings of the work-order alias resolve to `WO`,
and an unknown header is kept trimmed. -/
theorem C7_resolver_witness :
    resolveHeader "  Work   ORDER  " = "WO" ∧
    resolveHeader "  Work   ORDER  " = resolveHeader "work order" ∧
    resolveHeader " Notes " = pyStrip " Notes " :=
  ⟨C7_resolver.1 "  Work   ORDER  " "WO" (by decide),
   C7_resolver.2.1 "  Work   ORDER  " "work order" (by decide) (by decide),
   C7_resolver.2.2 " Notes " (by decide)⟩

/-- C8 counterexample: two raw extra headers that both resolve to `Notes`
make the label selection return every match per mention, so `Notes` appears
four times in the output headers although the resolved extras list carries it
only twice — the required-then-extras header equation fails. -/
theorem C8_counterexample :
    (normalize_df dupNotesTable).map Table.headers =
      Except.ok (REQUIRED_COLS ++ ["Notes", "Notes", "Notes", "Notes"]) ∧
    (standardize_columns dupNotesTable).headers.filter
      (fun c => !(REQUIRED_COLS.contains c)) = ["Notes", "Notes"] ∧
    REQUIRED_COLS ++ ["Notes", "Notes", "Notes", "Notes"] ≠
      REQUIRED_COLS ++ ["Notes", "Notes"] := by decide

/-- C8 (amended): when the resolved headers are duplicate-free, the output
columns of a successful run are the eight required canonical columns first,
in declared order, followed by the unrecognized columns in their original
relative order, and every extra column is preserved; with duplicated resolved
headers the label selection multiplies the duplicates instead. -/
theorem C8_column_order (t out : Table) (h : normalize_df t = Except.ok out)
    (hnodup : (standardize_columns t).headers.Nodup) :
    out.headers = REQUIRED_COLS ++ (standardize_columns t).headers.filter
      (fun c => !(REQUIRED_COLS.contains c)) ∧
    ∀ c ∈ (standardize_columns t).headers, c ∉ REQUIRED_COLS → c ∈ out.headers := by
  obtain ⟨hmiss, hhead, _⟩ := normalize_df_ok_rows t out h
  have hsub : ∀ n ∈ REQUIRED_COLS ++ (standardize_columns t).headers.filter
      (fun c => !(REQUIRED_COLS.contains c)), n ∈ (standardize_columns t).headers := by
    intro n hn
    rcases List.mem_append.mp hn with hn | hn
    · exact required_mem_of_filter_nil hmiss n hn
    · exact List.mem_of_mem_filter hn
  have h1 : out.headers = REQUIRED_COLS ++ (standardize_columns t).headers.filter
      (fun c => !(REQUIRED_COLS.contains c)) := by
    rw [hhead, selHeaders_nodup hnodup hsub]
  refine ⟨h1, ?_⟩
  intro c hc hnot
  rw [h1]
  refine List.mem_append_right _ ?_
  rw [List.mem_filter]
  refine ⟨hc, ?_⟩
  rw [Bool.not_eq_eq_eq_not, Bool.not_true, List.contains_eq_any_beq, List.any_eq_false]
  intro a ha hac
  have heq : c = a := eq_of_beq hac
  subst heq
  exact hnot ha

/-- C8 witness: the aliased example table resolves to the required columns
followed by its extra `Notes` column. -/
theorem C8_column_order_witness :
    (⟨REQUIRED_COLS ++ ["Notes"],
      [[PyVal.str "W100", PyVal.str "", PyVal.str "", PyVal.str "Open",
        PyVal.str "Acme", PyVal.str "Widget", PyVal.pydate ⟨2024, 3, 15⟩,
        PyVal.num ⟨123450, 2⟩, PyVal.str "meta"]]⟩ : Table).headers =
      REQUIRED_COLS ++ (standardize_columns aliasedTable).headers.filter
        (fun c => !(REQUIRED_COLS.contains c)) :=
  (C8_column_order aliasedTable
    ⟨REQUIRED_COLS ++ ["Notes"],
      [[PyVal.str "W100", PyVal.str "", PyVal.str "", PyVal.str "Open",
        PyVal.str "Acme", PyVal.str "Widget", PyVal.pydate ⟨2024, 3, 15⟩,
        PyVal.num ⟨123450, 2⟩, PyVal.str "meta"]]⟩ (by decide) (by decide)).1

/-- C10: both exposed single-cell coercers are total at the interface: `None`
and `NaN` inputs give missing, and on every cell value each returns either a
value of its target type or missing. -/
theorem C10_totality :
    parse_date_to_date PyVal.none = Option.none ∧
    parse_price_to_float PyVal.none = Option.none ∧
    parse_date_to_date PyVal.nan = Option.none ∧
    parse_price_to_float PyVal.nan = Option.none ∧
    (∀ v : PyVal, parse_date_to_date v = Option.none ∨
      ∃ d : PyDate, parse_date_to_date v = some d) ∧
    (∀ v : PyVal, parse_price_to_float v = Option.none ∨
      ∃ q : Dec, parse_price_to_float v = some q) := by
  refine ⟨by decide, by decide, by decide, by decide, ?_, ?_⟩
  · intro v
    cases hv : parse_date_to_date v with
    | none => exact Or.inl rfl
    | some d => exact Or.inr ⟨d, rfl⟩
  · intro v
    cases hv : parse_price_to_float v with
    | none => exact Or.inl rfl
    | some q => exact Or.inr ⟨q, rfl⟩

/-! ### Idempotence of the pipeline -/

/-- Membership makes `contains` true. -/
theorem contains_of_mem {l : List String} {a : String} (h : a ∈ l) :
    l.contains a = true := by
  rw [List.contains_eq_any_beq, List.any_eq_true]
  exact ⟨a, h, by simp⟩

/-- A coerced full row is never all-missing: its first cell is a string. -/
theorem allNA8_coerceRow (v0 v1 v2 v3 v4 v5 v6 v7 : PyVal) (tail : List PyVal) :
    allNA8 (coerceRow (v0 :: v1 :: v2 :: v3 :: v4 :: v5 :: v6 :: v7 :: tail)) = false := by
  rw [coerceRow, allNA8]
  simp [cleanCell, isNA]

/-- Reading a mapped list at a valid index applies the function to the
underlying element. -/
theorem getD_map_get {α β : Type} (g : α → β) (l : List α) (j : Nat) (d : β)
    (h : j < l.length) : (l.map g).getD j d = g (l.get ⟨j, h⟩) := by
  induction l generalizing j with
  | nil => cases h
  | cons a t ih =>
    cases j with
    | zero => rfl
    | succ j => exact ih j (by simpa using h)

/-- Positionally reading a clean row back by its own header names returns
the row unchanged: the required cells sit at their canonical positions and
every extra cell carries the value determined by its column name. -/
theorem selMap_clean_fixed (E : List String)
    (hE : ∀ e ∈ E, REQUIRED_COLS.contains e = false) (g : String → PyVal) :
    (REQUIRED_COLS ++ E).map (fun n =>
      (coerceRow (g "WO" :: g "Quote" :: g "PO Number" :: g "Status" ::
        g "Customer Name" :: g "Model Description" :: g "Scheduled Date" ::
        g "Price" :: E.map g)).getD
        ((REQUIRED_COLS ++ E).findIdx (fun c => c == n)) PyVal.nan) =
    coerceRow (g "WO" :: g "Quote" :: g "PO Number" :: g "Status" ::
      g "Customer Name" :: g "Model Description" :: g "Scheduled Date" ::
      g "Price" :: E.map g) := by
  have hmap : E.map (fun n =>
      (coerceRow (g "WO" :: g "Quote" :: g "PO Number" :: g "Status" ::
        g "Customer Name" :: g "Model Description" :: g "Scheduled Date" ::
        g "Price" :: E.map g)).getD
        ((REQUIRED_COLS ++ E).findIdx (fun c => c == n)) PyVal.nan) = E.map g := by
    apply List.map_congr_left
    intro e he
    have hne : ∀ a ∈ REQUIRED_COLS, (fun c => c == e) a = false := by
      intro a ha
      have hmemE : e ∉ REQUIRED_COLS := by
        intro hcontra
        have hc1 := hE e he
        have hc2 := contains_of_mem hcontra
        rw [hc1] at hc2
        exact Bool.noConfusion hc2
      exact beq_eq_false_iff_ne.mpr (fun hae => hmemE (hae ▸ ha))
    rw [findIdx_append_of_none E hne]
    have hlen8 : REQUIRED_COLS.length = 8 := rfl
    rw [hlen8]
    have hj : E.findIdx (fun c => c == e) < E.length := findIdx_mem_lt he
    have hr : coerceRow (g "WO" :: g "Quote" :: g "PO Number" :: g "Status" ::
        g "Customer Name" :: g "Model Description" :: g "Scheduled Date" ::
        g "Price" :: E.map g) =
        [cleanCell (g "WO"), cleanCell (g "Quote"), cleanCell (g "PO Number"),
         cleanCell (g "Status"), cleanCell (g "Customer Name"),
         cleanCell (g "Model Description"), dateCell (g "Scheduled Date"),
         priceCell (g "Price")] ++ E.map g := rfl
    rw [hr]
    have hgd : ∀ tail : List PyVal, ∀ j : Nat,
        (([cleanCell (g "WO"), cleanCell (g "Quote"), cleanCell (g "PO Number"),
          cleanCell (g "Status"), cleanCell (g "Customer Name"),
          cleanCell (g "Model Description"), dateCell (g "Scheduled Date"),
          priceCell (g "Price")] ++ tail).getD (8 + j) PyVal.nan) =
          tail.getD j PyVal.nan := by
      intro tail j
      have h8 : 8 + j = j + 8 := by omega
      rw [h8]
      rfl
    rw [hgd]
    rw [getD_map_get g E _ PyVal.nan hj, get_findIdx_self he]
  rw [selMap_req_append, hmap]
  rfl

/-- C9 counterexample: the pipeline is not idempotent on its own output —
duplicated resolved extra headers multiply again on re-selection (`Notes`
twice in the raw extras becomes four output columns, and re-running would
square them), and a small price is rendered by Python in scientific notation,
whose digit-and-sign residue re-parses to a different value. -/
theorem C9_counterexample :
    (normalize_df dupNotesTable = Except.ok dupNotesOut ∧
      normalize_df dupNotesOut ≠ Except.ok dupNotesOut) ∧
    (normalize_df sciPriceTable = Except.ok sciPriceOut ∧
      normalize_df sciPriceOut ≠ Except.ok sciPriceOut) := by decide

/-- C9 (amended): the pipeline is idempotent on its own output provided the
resolved input headers are duplicate-free and every output price is in plain
(non-scientific) notation: re-running `normalize_df` then succeeds with the
very same table — no header, no cell value, and no row changes.  Without the
provisos, duplicated resolved headers multiply on re-selection and a
scientific-notation price re-parses to a different value. -/
theorem C9_idempotent (x y : Table) (h : normalize_df x = Except.ok y)
    (hnodup : (standardize_columns x).headers.Nodup)
    (hplain : ∀ r ∈ y.rows, plainPrice (r.getD 7 PyVal.nan) = true) :
    normalize_df y = Except.ok y := by
  obtain ⟨hmiss0, hhead0, hrows⟩ := normalize_df_ok_rows x y h
  set E := (standardize_columns x).headers.filter (fun c => !(REQUIRED_COLS.contains c))
    with hEdef
  have hEfalse : ∀ e ∈ E, REQUIRED_COLS.contains e = false := by
    intro e he
    rw [hEdef] at he
    simpa using List.of_mem_filter he
  have hEresolve : ∀ e ∈ E, resolveHeader e = e := by
    intro e he
    rw [hEdef] at he
    have heH : e ∈ (standardize_columns x).headers := List.mem_of_mem_filter he
    simp only [standardize_columns] at heH
    obtain ⟨c0, _, hc0⟩ := List.mem_map.mp heH
    rw [← hc0, resolveHeader_idem]
  have hsub : ∀ n ∈ REQUIRED_COLS ++ E, n ∈ (standardize_columns x).headers := by
    intro n hn
    rcases List.mem_append.mp hn with hn | hn
    · exact required_mem_of_filter_nil hmiss0 n hn
    · rw [hEdef] at hn
      exact List.mem_of_mem_filter hn
  have hhead : y.headers = REQUIRED_COLS ++ E := by
    rw [hhead0, selHeaders_nodup hnodup hsub]
  have hynodup : y.headers.Nodup := by
    rw [hhead]
    refine List.Nodup.append (by decide) ?_ ?_
    · rw [hEdef]
      exact hnodup.filter _
    · intro a ha hae
      have hfa := hEfalse a hae
      rw [contains_of_mem ha] at hfa
      exact Bool.noConfusion hfa
  have hfix : ∀ c ∈ y.headers, resolveHeader c = c := by
    intro c hc
    rw [hhead] at hc
    rcases List.mem_append.mp hc with hc | hc
    · exact resolveHeader_required c hc
    · exact hEresolve c hc
  have hstd : standardize_columns y = y := by
    have hm : y.headers.map resolveHeader = y.headers := by
      rw [List.map_congr_left hfix]
      simp
    simp only [standardize_columns, hm]
  have hmiss : REQUIRED_COLS.filter (fun c => !(y.headers.contains c)) = [] := by
    rw [List.filter_eq_nil_iff]
    intro a ha
    have hmem : a ∈ y.headers := by
      rw [hhead]
      exact List.mem_append_left _ ha
    rw [contains_of_mem hmem]
    simp
  have hordered : REQUIRED_COLS ++
      y.headers.filter (fun c => !(REQUIRED_COLS.contains c)) = y.headers := by
    rw [hhead, List.filter_append]
    have hA : REQUIRED_COLS.filter (fun c => !(REQUIRED_COLS.contains c)) = [] := by decide
    have hB : E.filter (fun c => !(REQUIRED_COLS.contains c)) = E := by
      rw [List.filter_eq_self]
      intro e he
      rw [hEfalse e he]
      rfl
    rw [hA, hB]
    rfl
  have hshape : ∀ r ∈ y.rows, ∃ g : String → PyVal,
      r = coerceRow (g "WO" :: g "Quote" :: g "PO Number" :: g "Status" ::
        g "Customer Name" :: g "Model Description" :: g "Scheduled Date" ::
        g "Price" :: E.map g) := by
    intro r hr
    obtain ⟨⟨r0, _, hco, _⟩, _, _⟩ := hrows r hr
    refine ⟨fun n => r0.getD ((standardize_columns x).headers.findIdx
      (fun c => c == n)) PyVal.nan, ?_⟩
    rw [hco, selRow_nodup hnodup hsub, selMap_req_append]
  have hsel : ∀ r ∈ y.rows, selRow y.headers y.headers r = r := by
    intro r hr
    obtain ⟨g, hg⟩ := hshape r hr
    rw [selRow_nodup hynodup (fun n hn => hn), hg, hhead]
    exact selMap_clean_fixed E hEfalse g
  have hna : ∀ r ∈ y.rows, allNA8 r = false := by
    intro r hr
    obtain ⟨g, hg⟩ := hshape r hr
    rw [hg]
    exact allNA8_coerceRow _ _ _ _ _ _ _ _ _
  have hcoe : ∀ r ∈ y.rows, coerceRow r = r := by
    intro r hr
    obtain ⟨g, hg⟩ := hshape r hr
    have hp : plainPrice (priceCell (g "Price")) = true := by
      have hp0 := hplain r hr
      rw [hg] at hp0
      exact hp0
    rw [hg]
    exact coerceRow_fix _ _ _ _ _ _ _ _ _ hp
  have hsum : ∀ r ∈ y.rows, summaryLike r = false := fun r hr => (hrows r hr).2.1
  have hblank : ∀ r ∈ y.rows, blankLike r = false := fun r hr => (hrows r hr).2.2
  simp only [normalize_df, hstd]
  rw [if_pos hmiss, hordered]
  have hselfH : selHeaders y.headers y.headers = y.headers :=
    selHeaders_nodup hynodup (fun n hn => hn)
  rw [hselfH]
  have h1 : y.rows.map (selRow y.headers y.headers) = y.rows := by
    rw [List.map_congr_left hsel]
    simp
  rw [h1]
  have h2 : y.rows.filter (fun r => !(allNA8 r)) = y.rows := by
    rw [List.filter_eq_self]
    intro r hr
    rw [hna r hr]
    rfl
  rw [h2]
  have h3 : y.rows.map coerceRow = y.rows := by
    rw [List.map_congr_left hcoe]
    simp
  rw [h3]
  have h4 : y.rows.filter (fun r => !(summaryLike r)) = y.rows := by
    rw [List.filter_eq_self]
    intro r hr
    rw [hsum r hr]
    rfl
  rw [h4]
  have h5 : y.rows.filter (fun r => !(blankLike r)) = y.rows := by
    rw [List.filter_eq_self]
    intro r hr
    rw [hblank r hr]
    rfl
  rw [h5]

/-- C9 witness: re-running the pipeline on the normalized aliased example
changes nothing. -/
theorem C9_idempotent_witness :
    normalize_df ⟨REQUIRED_COLS ++ ["Notes"],
      [[PyVal.str "W100", PyVal.str "", PyVal.str "", PyVal.str "Open",
        PyVal.str "Acme", PyVal.str "Widget", PyVal.pydate ⟨2024, 3, 15⟩,
        PyVal.num ⟨123450, 2⟩, PyVal.str "meta"]]⟩ =
      Except.ok ⟨REQUIRED_COLS ++ ["Notes"],
        [[PyVal.str "W100", PyVal.str "", PyVal.str "", PyVal.str "Open",
          PyVal.str "Acme", PyVal.str "Widget", PyVal.pydate ⟨2024, 3, 15⟩,
          PyVal.num ⟨123450, 2⟩, PyVal.str "meta"]]⟩ :=
  C9_idempotent aliasedTable
    ⟨REQUIRED_COLS ++ ["Notes"],
      [[PyVal.str "W100", PyVal.str "", PyVal.str "", PyVal.str "Open",
        PyVal.str "Acme", PyVal.str "Widget", PyVal.pydate ⟨2024, 3, 15⟩,
        PyVal.num ⟨123450, 2⟩, PyVal.str "meta"]]⟩ (by decide) (by decide) (by decide)
